import Mathlib

/-!
Verification of the LatticeVeil maintenance scripts.

The repository consists of four independent Python scripts that each read one
HTML document, apply guarded textual substitutions, and write the document
back:

* `Tools/update_website_vr.py`  — four guarded byte-level insertions,
* `Tools/update_vr_preview.py`  — intended as two guarded string-level
  insertions, but unexecutable as staged (see the note below),
* `Tools/final_polish.py`       — whitespace normalisation, header regex
  replacement, mojibake scrubbing, catch-all deletions, UTF-8 re-encoding,
* `Tools/create_vr_page.py`     — unconditional page generation.

Documents are modelled as lists of naturals: byte values for the scripts that
operate on raw bytes, Unicode code points for the scripts that operate on
decoded text.  Python `str.replace`/`bytes.replace` is modelled by
`replaceAll` (global, left-to-right, non-overlapping), the `in` operator by
`List.IsInfix`, and the two shapes of regular expression used by
`final_polish.py` by the dedicated scanners `hdrSub`, `delPat1`, `delPat2`.

Note on `update_vr_preview.py`: as staged, that file does not parse — line
14 opens a plain double-quoted string that runs across a raw newline, so
every invocation of the script raises `SyntaxError` while the module is
being compiled, before the existence check or any file access executes.
The script is therefore modelled only at process level
(`update_vr_preview_main`, which always ends in a parse failure); no
executable embedding is given to insertions that never run.
-/

namespace LatticeVeil

set_option maxRecDepth 40000

/-- Code points of a string literal. -/
def cp (s : String) : List Nat := s.data.map Char.toNat

/-- UTF-8 encoding of one code point (total; callers guard validity). -/
def cpUtf8 (c : Nat) : List Nat :=
  if c < 0x80 then [c]
  else if c < 0x800 then [0xC0 + c / 0x40, 0x80 + c % 0x40]
  else if c < 0x10000 then [0xE0 + c / 0x1000, 0x80 + (c / 0x40) % 0x40, 0x80 + c % 0x40]
  else [0xF0 + c / 0x40000, 0x80 + (c / 0x1000) % 0x40, 0x80 + (c / 0x40) % 0x40,
        0x80 + c % 0x40]

/-- UTF-8 bytes of a string literal (used for the byte-level script). -/
def utf8Str (s : String) : List Nat := (s.data.map Char.toNat).flatMap cpUtf8

/-- Fuelled worker for `replaceAll`; the fuel dominates the list length. -/
def raGo (pat rep : List Nat) : Nat → List Nat → List Nat
  | _, [] => []
  | 0, s => s
  | fuel+1, c :: t =>
    if pat ≠ [] ∧ pat <+: (c :: t) then rep ++ raGo pat rep fuel ((c :: t).drop pat.length)
    else c :: raGo pat rep fuel t

/-- Python `str.replace`/`bytes.replace`: global, left-to-right,
non-overlapping replacement of `pat` by `rep`. -/
def replaceAll (pat rep s : List Nat) : List Nat := raGo pat rep s.length s

/-- Executable substring check (evaluates in tail position, so concrete
instances on long documents reduce without deep recursion). -/
def infixB (pat : List Nat) : List Nat → Bool
  | [] => pat.isEmpty
  | c :: t => pat.isPrefixOf (c :: t) || infixB pat t

/-- Executable suffix check through `reverse`. -/
def suffixB (pat s : List Nat) : Bool := pat.reverse.isPrefixOf s.reverse

/-- One guarded insertion of an injector script: skip when `marker` is
present, otherwise replace `anchor` by `anchor ++ fragment` (insertion after
the anchor) or by `fragment ++ anchor` (insertion before it). -/
structure Inj where
  marker : List Nat
  anchor : List Nat
  fragment : List Nat
  insAfter : Bool
deriving DecidableEq

/-- The replacement string a guarded insertion substitutes for its anchor. -/
def Inj.rep (st : Inj) : List Nat :=
  if st.insAfter then st.anchor ++ st.fragment else st.fragment ++ st.anchor

/-- `if marker not in content: content = content.replace(anchor, rep)`. -/
def applyInj (st : Inj) (s : List Nat) : List Nat :=
  if st.marker <:+: s then s else replaceAll st.anchor st.rep s

/-- Run the guarded insertions of a script in order. -/
def runInjs (l : List Inj) (s : List Nat) : List Nat :=
  l.foldl (fun acc st => applyInj st acc) s

def wa1 : List Nat := utf8Str "box-shadow: 4px 4px 0px #000; \x7d"

def wf1 : List Nat := utf8Str "\n        #vrIcon \x7b\n            display: none;\n            position: fixed;\n            bottom: 20px;\n            right: 20px;\n            z-index: 1000;\n            background: #4e9a06;\n            color: white;\n            border: 4px solid white;\n            padding: 15px;\n            border-radius: 50%;\n            cursor: pointer;\n            box-shadow: 0 0 15px rgba(78, 154, 6, 0.5);\n            transition: transform 0.2s;\n        \x7d\n        #vrIcon:hover \x7b transform: scale(1.1); \x7d\n        #vrIcon i \x7b font-size: 24px; \x7d\n"

def wm1 : List Nat := utf8Str "#vrIcon"

def wa2 : List Nat := utf8Str "<body>"

def wf2 : List Nat := utf8Str "\n    <button id=\"vrIcon\" onclick=\"window.location.href=\x27./vr/\x27\" title=\"Enter VR (Quest Only)\">\n        <i class=\"fas fa-vr-cardboard\"></i>\n    </button>\n"

def wm2 : List Nat := utf8Str "id=\"vrIcon\""

def wa3 : List Nat := utf8Str "populateGalleries();"

def wf3 : List Nat := utf8Str "\n        // WebXR / Quest Detection\n        async function checkVR() \x7b\n            const isQuest = /OculusBrowser|Quest/i.test(navigator.userAgent);\n            const vrSupported = navigator.xr && await navigator.xr.isSessionSupported(\x27immersive-vr\x27);\n            if (isQuest && vrSupported) \x7b\n                document.getElementById(\x27vrIcon\x27).style.display = \x27block\x27;\n            \x7d\n        \x7d\n        checkVR();\n\n        // Sync Tabs with URL Hash\n        function syncTab() \x7b\n            const hash = window.location.hash.replace(\x27#\x27, \x27\x27);\n            if (hash && document.getElementById(hash)) \x7b\n                const btn = Array.from(document.querySelectorAll(\x27.tab-link\x27)).find(l => \n                    l.textContent.toLowerCase().includes(hash.toLowerCase()) || \n                    (hash === \x27coding\x27 && l.textContent.includes(\x27DEV LOG\x27)) ||\n                    (hash === \x27assets\x27 && l.textContent.includes(\x27TEXTURES\x27))\n                );\n                if (btn) btn.click();\n            \x7d\n        \x7d\n        window.addEventListener(\x27hashchange\x27, syncTab);\n        syncTab();\n"

def wm3 : List Nat := utf8Str "checkVR();"

def wa4 : List Nat := utf8Str "<div id=\"log-website\" class=\"sub-content\">"

def wnewlog : List Nat := utf8Str "\n                <div class=\"log-entry\">\n                    <div class=\"log-header\">\n                        <h3>🥽 New Feature: WebXR VR Portal</h3>\n                        <span class=\"log-date\">JAN 12, 2026</span>\n                    </div>\n                    <div class=\"log-body\">\n                        <p>Meta Quest users rejoice! We\x27ve launched an experimental <strong>WebXR VR Portal</strong>. If you are browsing on a Quest 2 or 3, look for the VR icon in the bottom corner to enter an immersive voxel room.</p>\n                        <p>The VR room features a central kiosk where you can jump directly back to specific site sections while remaining in your headset.</p>\n                    </div>\n                </div>"

def wm4 : List Nat := utf8Str "WebXR VR Portal"







def hdrTriples : List (List Nat × List (Option Nat) × List Nat) := [
  (cp "<h3>", [some 73, some 110, some 102, some 105, some 110, some 105, some 116, some 101, some 32, some 84, some 101, some 114, some 114, some 97, some 105, some 110, some 60, some 47, some 104, some 51, some 62], cp "<h3>\u0440\u045f\u040f\u201d\u043f\u0451\u040f Infinite Terrain</h3>"),
  (cp "<h3>", [some 71, some 114, some 101, some 101, some 100, some 121, some 32, some 77, some 101, some 115, some 104, some 105, some 110, some 103, some 60, some 47, some 104, some 51, some 62], cp "<h3>\u0440\u045f\u040c\xb1 Greedy Meshing</h3>"),
  (cp "<h3>", [some 69, some 79, some 83, some 32, some 77, some 117, some 108, some 116, some 105, some 112, some 108, some 97, some 121, some 101, some 114, some 60, some 47, some 104, some 51, some 62], cp "<h3>\u0440\u045f\u0404\u0452 EOS Multiplayer</h3>"),
  (cp "<h3>", [some 80, some 111, some 119, some 101, some 114, some 101, some 100, some 32, some 98, some 121, some 32, some 71, some 105, some 116, some 72, some 117, some 98, some 32, some 80, some 97, some 103, some 101, some 115, some 60, some 47, some 104, some 51, some 62], cp "<h3>\u0440\u045f\u0452\u2122 Powered by GitHub Pages</h3>"),
  (cp "<h2>", [some 84, some 104, some 101, some 32, some 67, some 111, some 110, some 116, some 105, some 110, some 117, some 105, some 115, some 116, some 32, some 80, some 97, some 112, some 101, some 114, some 115, some 60, some 47, some 104, some 50, some 62], cp "<h2>\u0440\u045f\u201c\u045a The Continuist Papers</h2>"),
  (cp "<h3>", [some 81, some 117, some 105, some 99, some 107, some 32, some 83, some 117, some 109, some 109, some 97, some 114, some 121, some 60, some 47, some 104, some 51, some 62], cp "<h3>\u0440\u045f\u201d\u040c Quick Summary</h3>"),
  (cp "<h3>", [some 67, some 111, some 110, some 110, some 101, some 99, some 116, some 32, some 119, some 105, some 116, some 104, some 32, some 82, some 101, some 100, some 97, some 99, some 116, some 101, some 100, some 60, some 47, some 104, some 51, some 62], cp "<h3>\u0440\u045f\u201d\u2014 Connect with Redacted</h3>"),
  (cp "<h3>", [some 69, some 110, some 103, some 105, some 110, some 101, some 58, some 32, some 84, some 104, some 114, some 101, some 101, none, some 106, some 115, some 32, some 77, some 111, some 100, some 101, some 108, some 32, some 73, some 110, some 115, some 112, some 101, some 99, some 116, some 111, some 114, some 60, some 47, some 104, some 51, some 62], cp "<h3>\u0440\u045f\u2022\u0407\u043f\u0451\u040f Engine: Three.js Model Inspector</h3>") ]

def scrubPairs : List (List Nat × List Nat) := [
  (cp "\u0413\u045e\u0432\u201a\xac\u0432\u0402\u045c", cp "\u0432\u0402\u201d"),
  (cp "\u0413\u045e\u0432\u201a\xac\u0432\u0402\u045a", cp "\u0432\u0402\u201c"),
  (cp "\u0413\u045e\u0432\u201a\xac\u0415\u201c", cp "\u0432\u0402\u045a"),
  (cp "\u0413\u045e\u0432\u201a\xac\u0412\u045c", cp "\u0432\u0402\u045c"),
  (cp "\u0413\u045e\u0432\u201a\xac\u0432\u201e\u045e", cp "\u0432\u0402\u2122"),
  (cp "\u0413\u0453\u0412\u045e\u0413\u045e\x82\xac\x9c", cp "\u0432\u0402\u045a"),
  (cp "\u0413\u0453\u0412\u045e\u0413\u045e\x82\xac\x9d", cp "\u0432\u0402\u045c"),
  (cp "\u0413\u0453\u0412\u045e\u0413\u045e\x82\xac\x99", cp "\u0432\u0402\u2122"),
  (cp "\u0413\u0453\u0412\u045e\u0413\u045e\x82\xac\x94", cp "\u0432\u0402\u201d"),
  (cp "\u0413\u0453\u0412\u045e\u0413\u045e\x82\xac\x93", cp "\u0432\u0402\u201c"),
  (cp "\u0413\u045e\u0412\u0402\u0412\u201d", cp "\u0432\u0402\u201d"),
  (cp "\u0413\u045e\u0412\u0402\u0412\u201c", cp "\u0432\u0402\u201c"),
  (cp "\u0413\u045e\u0412\u0402\u0412\u2122", cp "\u0432\u0402\u2122"),
  (cp "\u0413\u045e\u0412\u0402\u0412\u045a", cp "\u0432\u0402\u045a"),
  (cp "\u0413\u045e\u0412\u0402\u0412\u045c", cp "\u0432\u0402\u045c"),
  (cp "\u0413\u0453\u0412\xb0\u0413\u2026\u0412\u0451\u0413\u045e\x80\x9c\x8c", cp "\u0440\u045f\u201c\u045a"),
  (cp "\u0413\u0453\u0412\xb0\u0413\u2026\u0412\u0451\u0413\u045e\x80\x9c\x96", cp "\u0440\u045f\u201c\u2013"),
  (cp "\u0413\u0453\u0412\xb0\u0413\u2026\u0412\u0451\u0413\u045e\x80\x94", cp "\u0440\u045f\u201d\u040c"),
  (cp "\u0413\xb0\u0415\u0451\u0432\u0402\u045a\u0415\u201c", cp "\u0440\u045f\u201c\u045a"),
  (cp "\u0413\xb0\u0415\u0451\u0432\u0402\u045a\u0432\u0402\u201c", cp "\u0440\u045f\u201c\u2013"),
  (cp "\u0413\xb0\u0415\u0451\u0432\u0402\u201d\u0412\u0454", cp "\u0440\u045f\u2014\u0454\u043f\u0451\u040f"),
  (cp "\u0413\xb0\u0415\u0451\u0432\u0402\u201c\u0412\u0458", cp "\u0440\u045f\u2013\u0458\u043f\u0451\u040f"),
  (cp "\u0413\xb0\u0415\u0451\u0415\u040e\u0432\u201a\xac", cp "\u0440\u045f\u0459\u0402"),
  (cp "\u0413\xb0\u0415\u0451\u0412\u0404\u0412\u0401", cp "\u0440\u045f\u0404\u0401"),
  (cp "\u0413\xb0\u0415\u0451\u0432\u0402\u045a\u0415\u040e", cp "\u0440\u045f\u201c\u0459"),
  (cp "\u0413\u045e\u0415\u040e\u0432\u0402\u2122", cp "\u0432\u0459\u2019\u043f\u0451\u040f"),
  (cp "\u0413\xb0\u0415\u0451\u0412\xa7\u0412\xb1", cp "\u0440\u045f\xa7\xb1"),
  (cp "\u0413\xb0\u0415\u0451\u0432\u0402\u045c\u0432\u0402\u045b", cp "\u0440\u045f\u201d\u201e"),
  (cp "\u0413\xb0\u0415\u0451\u0432\u0402\u045a\u0412\xa6", cp "\u0440\u045f\u201c\xa6"),
  (cp "\u0413\xb0\u0415\u0451\u0415\u2019\u0412\u0452", cp "\u0440\u045f\u040a\u0452"),
  (cp "\u0413\xb0\u0415\u0451\u0412\u0490\u0412\u0405", cp "\u0440\u045f\u0490\u0405"),
  (cp "\u0413\xb0\u0415\u0451\u0432\u0402\u045a\u0412\xb1", cp "\u0440\u045f\u201c\xb1"),
  (cp "\u0413\u045e\u0415\u040e\u0432\u0402\u201c", cp "\u0432\u0459\u2013\u043f\u0451\u040f"),
  (cp "\u0413\u045e\u0432\u201e\u045e\u0412\xbb", cp "\u0432\u2122\xbb\u043f\u0451\u040f"),
  (cp "\u0413\xb0\u0415\u0451\u0432\u0402\u045c", cp "\u0440\u045f\u2022\u0407\u043f\u0451\u040f"),
  (cp "\u0413\xb0\u0415\u0451\u0432\u0402\u045c\u0412\u0490", cp "\u0440\u045f\u201d\u0490"),
  (cp "\u0413\xb0\u0415\u0451.\u0432\u0402\u045c\u0432\u0402\u201d", cp "\u0440\u045f\u201d\u2014") ]

def delLit1 : List Nat := cp "\u0413\u0453\u0416\u2019\u0413\u201a"

def delLit2 : List Nat := cp "\u0413\u0453"

def strataPairs : List (List Nat × List Nat) := [
  (cp "Stone\u0413\u045e\x80\x91Braced", cp "Stone-Braced"),
  (cp "Continuist\u0413\u045e\x80\x91era", cp "Continuist-era"),
  (cp "in\u0413\u045e\x80\x91game", cp "in-game") ]

def vrPageHtml : String := "<!DOCTYPE html>\n<html>\n  <head>\n    <meta charset=\"utf-8\">\n    <title>LatticeVeil VR | WebXR Room</title>\n    <script src=\"https://aframe.io/releases/1.4.2/aframe.min.js\"></script>\n    <script src=\"https://unpkg.com/aframe-environment-component@1.3.2/dist/aframe-environment-component.min.js\"></script>\n  </head>\n  <body>\n    <a-scene>\n      <a-entity environment=\"preset: pixel; seed: 42; dressingAmount: 50; grid: dots; groundColor: #222; skyColor: #111; horizonColor: #333;\"></a-entity>\n      <a-assets><img id=\"logo\" src=\"../assets/img/logo.png\"></a-assets>\n      <a-entity id=\"rig\" position=\"0 0 4\">\n        <a-camera look-controls wasd-controls><a-cursor color=\"#4e9a06\" fuse=\"false\"></a-cursor></a-camera>\n        <a-entity oculus-touch-controls=\"hand: left\"></a-entity>\n        <a-entity oculus-touch-controls=\"hand: right\"></a-entity>\n      </a-entity>\n      <a-image src=\"#logo\" position=\"0 2.5 -2\" width=\"2\" height=\"0.5\" transparent=\"true\"></a-image>\n      <a-entity position=\"0 1.5 -2\">\n        <a-plane color=\"#2d2d2d\" width=\"3\" height=\"2\" position=\"0 0 -0.05\"></a-plane>\n        <a-text value=\"LATTICEVEIL VR PORTAL\" align=\"center\" position=\"0 0.7 0\" color=\"#e9b96e\" width=\"4\"></a-text>\n        <a-entity class=\"clickable\" position=\"-0.8 -0.2 0\" geometry=\"primitive: plane; width: 0.7; height: 0.4\" material=\"color: #4e9a06\" onclick=\"window.location.href=\x27../\x27\">\n          <a-text value=\"HOME\" align=\"center\" position=\"0 0 0.01\" color=\"#fff\" width=\"2\"></a-text>\n        </a-entity>\n        <a-entity class=\"clickable\" position=\"0 -0.2 0\" geometry=\"primitive: plane; width: 0.7; height: 0.4\" material=\"color: #4e9a06\" onclick=\"window.location.href=\x27../#coding\x27\">\n          <a-text value=\"DEVLOG\" align=\"center\" position=\"0 0 0.01\" color=\"#fff\" width=\"2\"></a-text>\n        </a-entity>\n        <a-entity class=\"clickable\" position=\"0.8 -0.2 0\" geometry=\"primitive: plane; width: 0.7; height: 0.4\" material=\"color: #4e9a06\" onclick=\"window.location.href=\x27../#assets\x27\">\n          <a-text value=\"BLOCKS\" align=\"center\" position=\"0 0 0.01\" color=\"#fff\" width=\"2\"></a-text>\n        </a-entity>\n      </a-entity>\n      <a-box position=\"-2 0.5 -3\" color=\"#4e9a06\" animation=\"property: rotation; to: 0 360 0; loop: true; dur: 10000\"></a-box>\n      <a-box position=\"2 0.5 -3\" color=\"#e9b96e\" animation=\"property: rotation; to: 0 -360 0; loop: true; dur: 8000\"></a-box>\n    </a-scene>\n    <script>\n      document.querySelectorAll(\x27.clickable\x27).forEach(el => \x7b\n        el.addEventListener(\x27mouseenter\x27, () => el.setAttribute(\x27material\x27, \x27color\x27, \x27#3a7304\x27));\n        el.addEventListener(\x27mouseleave\x27, () => el.setAttribute(\x27material\x27, \x27color\x27, \x27#4e9a06\x27));\n      \x7d);\n    </script>\n  </body>\n</html>\n"

/-- Fragment of insertion 4 of `update_website_vr.py`:
`log_marker + b'\n' + new_log.encode('utf-8')` appends a newline before the
devlog entry. -/
def wf4 : List Nat := 10 :: wnewlog

/-- Insertion 1 of `update_website_vr.py` (CSS rule, guarded by `#vrIcon`). -/
def wi1 : Inj := ⟨wm1, wa1, wf1, true⟩

/-- Insertion 2 of `update_website_vr.py` (button, guarded by `id="vrIcon"`). -/
def wi2 : Inj := ⟨wm2, wa2, wf2, true⟩

/-- Insertion 3 of `update_website_vr.py` (detection script, guarded by
`checkVR();`). -/
def wi3 : Inj := ⟨wm3, wa3, wf3, true⟩

/-- Insertion 4 of `update_website_vr.py` (devlog entry, guarded by
`WebXR VR Portal`). -/
def wi4 : Inj := ⟨wm4, wa4, wf4, true⟩

/-- The four guarded insertions of `update_website_vr.py`, in program order. -/
def websiteInjs : List Inj := [wi1, wi2, wi3, wi4]

/-- In-memory transformation performed by `update_website_vr.py` on the bytes
of `index.html`. -/
def update_website_vr (s : List Nat) : List Nat := runInjs websiteInjs s

/-! ### The `final_polish.py` pipeline -/

/-- Output for a pending run of `n` newlines: `re.sub(r'\n{3,}', '\n\n', ·)`
rewrites a maximal run of three or more newlines to exactly two. -/
def emitNl (n : Nat) : List Nat := if 3 ≤ n then [10, 10] else List.replicate n 10

/-- Worker for `collapse`: `n` counts the newlines pending in the current
run. -/
def collapseGo : List Nat → Nat → List Nat
  | [], n => emitNl n
  | c :: t, n => if c = 10 then collapseGo t (n + 1) else emitNl n ++ c :: collapseGo t 0

/-- `re.sub(r'\n{3,}', '\n\n', content)`. -/
def collapse (s : List Nat) : List Nat := collapseGo s 0

/-- Step 1 of `final_polish`: `content.replace('\r\n', '\n')` followed by the
blank-line collapse. -/
def normalizeWs (s : List Nat) : List Nat := collapse (replaceAll (cp "\r\n") (cp "\n") s)

/-- ASCII lower-casing used to model `re.IGNORECASE` on the ASCII pattern
literals. -/
def lowerCp (c : Nat) : Nat := if 65 ≤ c ∧ c ≤ 90 then c + 32 else c

/-- Case-insensitive match of a pattern prefix; `none` is the regex `.`
(any character except a newline). -/
def ciPrefixP : List (Option Nat) → List Nat → Bool
  | [], _ => true
  | _ :: _, [] => false
  | p :: ps, c :: cs =>
    (match p with
     | none => !(c == 10)
     | some d => lowerCp d == lowerCp c) && ciPrefixP ps cs

/-- Lazy `.*?`: offset of the nearest position where `cl` matches, skipping
only non-newline characters. -/
def findClose (cl : List (Option Nat)) : List Nat → Option Nat
  | [] => if ciPrefixP cl [] then some 0 else none
  | c :: t =>
    if ciPrefixP cl (c :: t) then some 0
    else if c == 10 then none
    else (findClose cl t).map (· + 1)

/-- Fuelled worker for `hdrSub`. -/
def hdrGo (op : List Nat) (cl : List (Option Nat)) (rep : List Nat) :
    Nat → List Nat → List Nat
  | _, [] => []
  | 0, s => s
  | fuel+1, c :: t =>
    if op ≠ [] ∧ ciPrefixP (op.map some) (c :: t) = true then
      match findClose cl ((c :: t).drop op.length) with
      | some j => rep ++ hdrGo op cl rep fuel ((c :: t).drop (op.length + j + cl.length))
      | none => c :: hdrGo op cl rep fuel t
    else c :: hdrGo op cl rep fuel t

/-- `re.sub('<op>.*?<cl>', rep, s, flags=re.IGNORECASE)` for one header
pattern of `final_polish.py`. -/
def hdrSub (op : List Nat) (cl : List (Option Nat)) (rep s : List Nat) : List Nat :=
  hdrGo op cl rep s.length s

/-- Apply the eight header replacements in program order. -/
def runHdrs (ts : List (List Nat × List (Option Nat) × List Nat)) (s : List Nat) : List Nat :=
  ts.foldl (fun acc t => hdrSub t.1 t.2.1 t.2.2 acc) s

/-- Apply a list of literal replacements in program order. -/
def runPairs (ps : List (List Nat × List Nat)) (s : List Nat) : List Nat :=
  ps.foldl (fun acc p => replaceAll p.1 p.2 acc) s

/-- The Python `\s` class for text patterns (Unicode whitespace). -/
def isPySpace (c : Nat) : Bool :=
  [9, 10, 11, 12, 13, 28, 29, 30, 31, 32, 133, 160, 5760, 8192, 8193, 8194, 8195,
   8196, 8197, 8198, 8199, 8200, 8201, 8202, 8232, 8233, 8239, 8287, 12288].contains c

/-- The character class `[A-Za-z0-9\x80-\xFF]` of the second catch-all. -/
def inCls2 (c : Nat) : Bool :=
  decide ((65 ≤ c ∧ c ≤ 90) ∨ (97 ≤ c ∧ c ≤ 122) ∨ (48 ≤ c ∧ c ≤ 57) ∨ (128 ≤ c ∧ c ≤ 255))

/-- Fuelled worker for `delPat1`. -/
def d1Go (lit : List Nat) : Nat → List Nat → List Nat
  | _, [] => []
  | 0, s => s
  | fuel+1, c :: t =>
    if lit ≠ [] ∧ lit <+: (c :: t) then
      d1Go lit fuel (((c :: t).drop lit.length).dropWhile fun d => !isPySpace d && !(d == 60))
    else c :: d1Go lit fuel t

/-- First catch-all deletion: `re.sub(r'<delLit1>[^\s<]*', '', s)`. -/
def delPat1 (s : List Nat) : List Nat := d1Go delLit1 s.length s

/-- Fuelled worker for `delPat2`. -/
def d2Go (lit : List Nat) : Nat → List Nat → List Nat
  | _, [] => []
  | 0, s => s
  | fuel+1, c :: t =>
    if lit ≠ [] ∧ lit <+: (c :: t) then
      if 2 ≤ (((c :: t).drop lit.length).takeWhile inCls2).length then
        d2Go lit fuel
          (((c :: t).drop lit.length).drop (((c :: t).drop lit.length).takeWhile inCls2).length)
      else c :: d2Go lit fuel t
    else c :: d2Go lit fuel t

/-- Second catch-all deletion: `re.sub(r'<delLit2>[A-Za-z0-9\x80-\xFF]{2,}', '', s)`. -/
def delPat2 (s : List Nat) : List Nat := d2Go delLit2 s.length s

/-- The in-memory text transformation of `final_polish.py` (steps 1–5; step 5
is the dead duplicate-`openFaction` guard, which performs no change). -/
def polishText (s : List Nat) : List Nat :=
  runPairs strataPairs (delPat2 (delPat1 (runPairs scrubPairs (runHdrs hdrTriples (normalizeWs s)))))

/-- `data.decode('latin-1')`: total on genuine bytes, the code point equals
the byte value. -/
def latin1Decode (bs : List Nat) : Option (List Nat) :=
  if ∀ b ∈ bs, b < 256 then some bs else none

/-- `str.encode('utf-8')` for one code point; fails on surrogates and
out-of-range values exactly as CPython does. -/
def cpUtf8o (c : Nat) : Option (List Nat) :=
  if 0xD800 ≤ c ∧ c ≤ 0xDFFF then none
  else if 0x110000 ≤ c then none
  else some (cpUtf8 c)

/-- `content.encode('utf-8')` over a whole text. -/
def utf8EncodeAll : List Nat → Option (List Nat)
  | [] => some []
  | c :: t => (cpUtf8o c).bind fun b => (utf8EncodeAll t).map (b ++ ·)

/-- End-to-end byte transformation of `final_polish.py`: permissive latin-1
decode, text polish, strict UTF-8 encode (no BOM). -/
def final_polish (bs : List Nat) : Option (List Nat) :=
  (latin1Decode bs).bind fun s => utf8EncodeAll (polishText s)

/-- Valid non-surrogate code point (encodable by `cpUtf8o`). -/
abbrev OkCp (c : Nat) : Prop := c < 0xD800 ∨ (0xDFFF < c ∧ c < 0x110000)

/-! ### Filesystem-level model for the page generator and script entry points -/

/-- Minimal filesystem state: a set of directories and a partial map from
paths to text contents. -/
structure SiteFS where
  dirs : String → Bool
  files : String → Option String

/-- Hardcoded target path of `create_vr_page.py` and `update_vr_preview.py`. -/
def vrPagePath : String :=
  "C:\\Users\\Redacted\\Documents\\latticeveil.github.io\\vr\\index.html"

/-- `os.path.dirname` of `vrPagePath`. -/
def vrPageDir : String := "C:\\Users\\Redacted\\Documents\\latticeveil.github.io\\vr"

/-- `create_vr_page.py`: `os.makedirs(dirname, exist_ok=True)` then write the
compiled-in template unconditionally. -/
def create_vr_page (fs : SiteFS) : SiteFS :=
  { dirs := fun d => if d = vrPageDir then true else fs.dirs d
    files := fun p => if p = vrPagePath then some vrPageHtml else fs.files p }

/-- Observable outcome of one script process run. -/
inductive RunOutcome where
  | wrote (content : List Nat) : RunOutcome
  | exitNoWrite (code : Nat) : RunOutcome
  | uncaughtError : RunOutcome
  | parseFailure : RunOutcome
deriving DecidableEq

/-- `update_vr_preview.py` as a process.  The staged file does not parse:
line 14 opens a plain double-quoted string that runs across a raw newline,
so CPython raises `SyntaxError` while compiling the module — before the
existence check, the read, any insertion, or the write can run — whatever
the state of the target file. -/
def update_vr_preview_main : Option (List Nat) → RunOutcome
  | _ => .parseFailure

/-- `update_website_vr.py` as a process: `open` raises when the target is
missing (uncaught). -/
def update_website_vr_main : Option (List Nat) → RunOutcome
  | none => .uncaughtError
  | some c => .wrote (update_website_vr c)

/-- `final_polish.py` as a process: `open` raises when the target is missing
(uncaught). -/
def final_polish_main : Option (List Nat) → RunOutcome
  | none => .uncaughtError
  | some c =>
    match final_polish c with
    | some o => .wrote o
    | none => .uncaughtError

/-- `create_vr_page.py` as a process: writes the template regardless of any
previous content. -/
def create_vr_page_main : Option (List Nat) → RunOutcome
  | _ => .wrote (utf8Str vrPageHtml)

/-! ### Overlap side conditions for preservation through an insertion -/

/-- No occurrence of `a` may end strictly inside `x`: every split of `x` into
nonempty `u ++ v` has `u` neither a suffix of `a` nor an extension of one. -/
def SafeCut (x a : List Nat) : Prop :=
  ∀ u v : List Nat, x = u ++ v → u ≠ [] → v ≠ [] → ¬ u <:+ a ∧ ¬ a <:+ u

/-- Decidable form of `SafeCut` (splits indexed by length; only splits no
longer than `a` can make the prefix of `x` a suffix of `a`). -/
abbrev NoCutD (x a : List Nat) : Prop :=
  (∀ k, k < min x.length (a.length + 1) → 0 < k → ¬ x.take k <:+ a) ∧
    infixB a x.dropLast = false

/-- `x` cannot newly appear when `a` is globally replaced by `a ++ f`:
`x` does not sit inside `f`, cannot straddle the boundary where `f` is
inserted after an occurrence of `a`, and cannot begin inside `f`. -/
def SafeAbs (x a f : List Nat) : Prop :=
  x ≠ [] ∧ ¬ x <:+: f ∧
    ∀ u v : List Nat, x = u ++ v → u ≠ [] → v ≠ [] →
      (¬ ((u <:+ a ∨ a <:+ u) ∧ (v <+: f ∨ f <+: v)) ∧ ¬ u <:+ f ∧ ¬ f <:+ u)

/-- Decidable form of `SafeAbs` (splits indexed by length). -/
abbrev NoAbsD (x a f : List Nat) : Prop :=
  x ≠ [] ∧ infixB x f = false ∧
    ∀ k, k < x.length → 0 < k →
      ((¬ x.take k <:+ a ∧ ¬ a <:+ x.take k) ∨ (¬ x.drop k <+: f ∧ ¬ f <+: x.drop k)) ∧
        suffixB (x.take k) f = false ∧ ¬ f <:+ x.take k

/-- `t0 ++ a ++ t1 ++ a ++ ... ++ a ++ tk`: a document in which the anchor
`a` occurs exactly at the `k` separator positions. -/
def joinSep (sep : List Nat) : List (List Nat) → List Nat
  | [] => []
  | [t] => t
  | t :: ts => t ++ sep ++ joinSep sep ts

/-! ## Basic properties of `replaceAll` -/

theorem raGo_eq (pat rep : List Nat) :
    ∀ (n : Nat) (s : List Nat) (f : Nat), s.length = n → n ≤ f →
      raGo pat rep f s = replaceAll pat rep s := by
  intro n
  induction n using Nat.strong_induction_on with
  | _ n ih =>
    intro s f hlen hf
    match s with
    | [] => cases f <;> rfl
    | c :: t =>
      match f with
      | 0 => exfalso; simp at hlen; omega
      | f' + 1 =>
        have hlt : t.length + 1 = n := by simpa using hlen
        show raGo pat rep (f' + 1) (c :: t) = raGo pat rep (c :: t).length (c :: t)
        by_cases hc : pat ≠ [] ∧ pat <+: (c :: t)
        · have hplen : 0 < pat.length := List.length_pos.mpr hc.1
          have hdl : ((c :: t).drop pat.length).length = t.length + 1 - pat.length := by
            simp [List.length_drop]
          rw [show (c :: t).length = t.length + 1 from rfl]
          simp only [raGo, if_pos hc]
          rw [ih ((c :: t).drop pat.length).length (by omega) _ f' rfl (by omega),
            ih ((c :: t).drop pat.length).length (by omega) _ t.length rfl (by omega)]
        · rw [show (c :: t).length = t.length + 1 from rfl]
          simp only [raGo, if_neg hc]
          rw [ih t.length (by omega) t f' rfl (by omega),
            ih t.length (by omega) t t.length rfl (by omega)]

theorem replaceAll_nil (pat rep : List Nat) : replaceAll pat rep [] = [] := rfl

theorem replaceAll_pos (pat rep : List Nat) (c : Nat) (t : List Nat)
    (h1 : pat ≠ []) (h2 : pat <+: (c :: t)) :
    replaceAll pat rep (c :: t) = rep ++ replaceAll pat rep ((c :: t).drop pat.length) := by
  show raGo pat rep (t.length + 1) (c :: t) = _
  simp only [raGo, if_pos (And.intro h1 h2)]
  rw [raGo_eq pat rep ((c :: t).drop pat.length).length _ t.length rfl
    (by have := List.length_pos.mpr h1; simp only [List.length_drop, List.length_cons]; omega)]

theorem replaceAll_neg (pat rep : List Nat) (c : Nat) (t : List Nat)
    (h : ¬ (pat ≠ [] ∧ pat <+: (c :: t))) :
    replaceAll pat rep (c :: t) = c :: replaceAll pat rep t := by
  show raGo pat rep (t.length + 1) (c :: t) = _
  simp only [raGo, if_neg h]
  rfl

theorem replaceAll_of_absent (pat rep : List Nat) :
    ∀ s, ¬ pat <:+: s → replaceAll pat rep s = s := by
  intro s
  induction s with
  | nil => intro _; rfl
  | cons c t ih =>
    intro h
    have hnp : ¬ (pat ≠ [] ∧ pat <+: (c :: t)) := by
      rintro ⟨_, h2⟩; exact h h2.isInfix
    rw [replaceAll_neg _ _ _ _ hnp, ih (fun hi => h (List.infix_cons hi))]

theorem rep_in_result (pat rep : List Nat) (hne : pat ≠ []) :
    ∀ s, pat <:+: s → rep <:+: replaceAll pat rep s := by
  intro s
  induction s with
  | nil => intro h; exact absurd (List.infix_nil.mp h) hne
  | cons c t ih =>
    intro h
    by_cases hp : pat <+: (c :: t)
    · rw [replaceAll_pos _ _ _ _ hne hp]
      exact (List.prefix_append rep _).isInfix
    · have hnp : ¬ (pat ≠ [] ∧ pat <+: c :: t) := fun hc => hp hc.2
      rw [replaceAll_neg _ _ _ _ hnp]
      exact List.infix_cons (ih ((List.infix_cons_iff.mp h).resolve_left hp))

theorem replaceAll_skip (a rep : List Nat) (ha : a ≠ []) :
    ∀ (u v : List Nat), ¬ a <:+: (u ++ a.dropLast) →
      replaceAll a rep (u ++ a ++ v) = u ++ rep ++ replaceAll a rep v := by
  intro u
  induction u with
  | nil =>
    intro v _
    simp only [List.nil_append]
    obtain ⟨c, a', rfl⟩ : ∃ c a', a = c :: a' := by
      cases a with
      | nil => exact absurd rfl ha
      | cons c a' => exact ⟨c, a', rfl⟩
    have hpre : (c :: a') <+: c :: (a' ++ v) := by
      exact List.prefix_append (c :: a') v
    have hdrop : (c :: (a' ++ v)).drop (c :: a').length = v := by
      rw [show c :: (a' ++ v) = (c :: a') ++ v by simp]
      exact List.drop_left _ _
    rw [show (c :: a') ++ v = c :: (a' ++ v) by simp,
      replaceAll_pos _ _ _ _ ha hpre, hdrop]
  | cons c u' ih =>
    intro v h
    have hlen0 := List.length_pos.mpr ha
    have hna : ¬ a <+: c :: (u' ++ a ++ v) := by
      intro hp
      apply h
      have hle : a.length ≤ (c :: u').length + (a.length - 1) := by
        simp only [List.length_cons]; omega
      have htake : (c :: (u' ++ a ++ v)).take ((c :: u').length + (a.length - 1)) =
          (c :: u') ++ a.dropLast := by
        rw [show c :: (u' ++ a ++ v) = (c :: u') ++ (a ++ v) by simp,
          List.take_append (a.length - 1), List.take_append_of_le_length (by omega),
          ← List.dropLast_eq_take]
      have hp2 : a <+: (c :: (u' ++ a ++ v)).take ((c :: u').length + (a.length - 1)) :=
        List.prefix_take_iff.mpr ⟨hp, hle⟩
      rw [htake] at hp2
      exact hp2.isInfix
    rw [show (c :: u') ++ a ++ v = c :: (u' ++ a ++ v) by simp,
      replaceAll_neg _ _ _ _ (fun hc => hna hc.2),
      ih v (fun hi => h (by exact List.infix_cons (a := c) hi))]
    simp

theorem replaceAll_joinSep (a rep : List Nat) (ha : a ≠ []) :
    ∀ ts : List (List Nat), (hne : ts ≠ []) →
      (∀ u ∈ ts.dropLast, ¬ a <:+: (u ++ a.dropLast)) →
      ¬ a <:+: ts.getLast hne →
      replaceAll a rep (joinSep a ts) = joinSep rep ts := by
  intro ts
  induction ts with
  | nil => intro h; exact absurd rfl h
  | cons t ts' ih =>
    intro hne hdrop hlast
    match ts' with
    | [] =>
      show replaceAll a rep t = t
      exact replaceAll_of_absent a rep t (by simpa using hlast)
    | t' :: ts'' =>
      show replaceAll a rep (t ++ a ++ joinSep a (t' :: ts'')) =
        t ++ rep ++ joinSep rep (t' :: ts'')
      have hd : ¬ a <:+: (t ++ a.dropLast) := by
        apply hdrop
        simp [List.dropLast_cons₂]
      rw [replaceAll_skip a rep ha t _ hd,
        ih (by simp) (fun u hu => hdrop u (by simp [List.dropLast_cons₂, hu]))
          (by rwa [List.getLast_cons] at hlast)]

/-! ## Preservation and non-introduction through a guarded insertion -/

theorem infix_ext_right {x y : List Nat} (z : List Nat) (h : x <:+: y) : x <:+: y ++ z :=
  h.trans (List.prefix_append y z).isInfix

theorem infix_ext_left (y : List Nat) {x z : List Nat} (h : x <:+: z) : x <:+: y ++ z :=
  h.trans (List.suffix_append y z).isInfix

theorem suffix_cons_of {x l : List Nat} (c : Nat) (h : x <:+ l) : x <:+ c :: l := by
  obtain ⟨w, rfl⟩ := h
  exact ⟨c :: w, rfl⟩

theorem pres_prefix (a f : List Nat) (ha : a ≠ []) :
    ∀ (t x' : List Nat), x' <+: t →
      (∀ k, 0 < k → k < x'.length → ¬ a <:+ x'.take k) →
      x' <+: replaceAll a (a ++ f) t := by
  intro t
  induction t with
  | nil => intro x' hp _; rw [replaceAll_nil]; exact hp
  | cons c t₀ ih =>
    intro x' hp hne
    by_cases hpos : a <+: (c :: t₀)
    · rw [replaceAll_pos _ _ _ _ ha hpos]
      by_cases hlen : x'.length ≤ a.length
      · have hxa : x' <+: a := List.prefix_of_prefix_length_le hp hpos hlen
        exact hxa.trans ((List.prefix_append a f).trans (List.prefix_append (a ++ f) _))
      · push_neg at hlen
        exfalso
        have hax : a <+: x' := List.prefix_of_prefix_length_le hpos hp (by omega)
        have heq : a = x'.take a.length := List.prefix_iff_eq_take.mp hax
        exact hne a.length (List.length_pos.mpr ha) hlen (by rw [← heq])
    · rw [replaceAll_neg _ _ _ _ (fun hc => hpos hc.2)]
      cases x' with
      | nil => exact List.nil_prefix
      | cons c' x'' =>
        obtain ⟨hc', hx''⟩ := List.cons_prefix_cons.mp hp
        refine List.cons_prefix_cons.mpr ⟨hc', ih x'' hx'' ?_⟩
        intro k hk hklen hsuf
        have := hne (k + 1) (by omega) (by simp only [List.length_cons]; omega)
        rw [List.take_succ_cons] at this
        exact this (suffix_cons_of c' hsuf)

theorem pres_infix_aux (a f x : List Nat) (ha : a ≠ []) (hsafe : SafeCut x a) :
    ∀ (n : Nat) (s : List Nat), s.length = n → x <:+: s →
      x <:+: replaceAll a (a ++ f) s := by
  intro n
  induction n using Nat.strong_induction_on with
  | _ n ih =>
    intro s hlen hx
    match s with
    | [] => rwa [replaceAll_nil]
    | c :: t =>
      have hn : t.length + 1 = n := by simpa using hlen
      by_cases hpos : a <+: (c :: t)
      · rw [replaceAll_pos _ _ _ _ ha hpos]
        set s' := (c :: t).drop a.length with hsdef
        have hsplit : a ++ s' = c :: t := List.prefix_iff_eq_append.mp hpos
        have hapos : 0 < a.length := List.length_pos.mpr ha
        have hslt : s'.length < n := by
          have : s'.length = t.length + 1 - a.length := by
            simp [hsdef, List.length_drop]
          omega
        obtain ⟨u, v, huv⟩ := hx
        have huv2 : u ++ (x ++ v) = a ++ s' := by
          rw [← List.append_assoc, huv, ← hsplit]
        rcases List.append_eq_append_iff.mp huv2 with ⟨w, hw1, hw2⟩ | ⟨w, hw1, hw2⟩
        · -- a = u ++ w, x ++ v = w ++ s'
          rcases List.append_eq_append_iff.mp hw2 with ⟨z, hz1, hz2⟩ | ⟨z, hz1, hz2⟩
          · -- w = x ++ z : x is inside a
            have hxa : x <:+: a := ⟨u, z, by rw [hw1, hz1, List.append_assoc]⟩
            exact infix_ext_right _ (infix_ext_right _ hxa)
          · -- x = w ++ z, s' = z ++ v
            by_cases hw : w = []
            · subst hw
              have hxz : x = z := by simpa using hz1
              have hxs' : x <:+: s' := ⟨[], v, by rw [hz2, hxz]; simp⟩
              exact infix_ext_left _ (ih s'.length hslt s' rfl hxs')
            · by_cases hz : z = []
              · subst hz
                have hxw : x = w := by simpa using hz1
                have hxa : x <:+: a := ⟨u, [], by rw [hxw, List.append_nil, ← hw1]⟩
                exact infix_ext_right _ (infix_ext_right _ hxa)
              · exfalso
                have hwa : w <:+ a := ⟨u, hw1.symm⟩
                exact (hsafe w z hz1 hw hz).1 hwa
        · -- u = a ++ w, s' = w ++ (x ++ v)
          have hxs' : x <:+: s' := ⟨w, v, by rw [hw2, List.append_assoc]⟩
          exact infix_ext_left _ (ih s'.length hslt s' rfl hxs')
      · rw [replaceAll_neg _ _ _ _ (fun hc => hpos hc.2)]
        rcases List.infix_cons_iff.mp hx with hpre | hinf
        · cases x with
          | nil => exact (List.nil_prefix).isInfix
          | cons c' x'' =>
            obtain ⟨hc', hx''⟩ := List.cons_prefix_cons.mp hpre
            have hne' : ∀ k, 0 < k → k < x''.length → ¬ a <:+ x''.take k := by
              intro k hk hklen hsuf
              have hvne : x''.drop k ≠ [] := by
                intro h0
                have := List.drop_eq_nil_iff.mp h0
                omega
              have hs := hsafe (c' :: x''.take k) (x''.drop k) (by simp) (by simp) hvne
              exact hs.2 (suffix_cons_of c' hsuf)
            refine (List.cons_prefix_cons.mpr ⟨hc', ?_⟩).isInfix
            exact pres_prefix a f ha t x'' hx'' hne'
        · exact List.infix_cons (ih t.length (by omega) t rfl hinf)

theorem pres_replace (a f x : List Nat) (ha : a ≠ []) (hsafe : SafeCut x a)
    (s : List Nat) (hx : x <:+: s) : x <:+: replaceAll a (a ++ f) s :=
  pres_infix_aux a f x ha hsafe s.length s rfl hx

theorem abs_prefix (a f : List Nat) (ha : a ≠ []) :
    ∀ (t x' : List Nat),
      (∀ u v : List Nat, x' = u ++ v → u ≠ [] → v ≠ [] →
        ¬ (a <:+ u ∧ (v <+: f ∨ f <+: v))) →
      x' <+: replaceAll a (a ++ f) t → x' <+: t := by
  intro t
  induction t with
  | nil => intro x' _ h; rwa [replaceAll_nil] at h
  | cons c t₀ ih =>
    intro x' hnap h
    by_cases hpos : a <+: (c :: t₀)
    · rw [replaceAll_pos _ _ _ _ ha hpos] at h
      have haR : a <+: (a ++ f) ++ replaceAll a (a ++ f) ((c :: t₀).drop a.length) :=
        (List.prefix_append a f).trans (List.prefix_append (a ++ f) _)
      by_cases hlen : x'.length ≤ a.length
      · exact (List.prefix_of_prefix_length_le h haR hlen).trans hpos
      · push_neg at hlen
        exfalso
        have hax : a <+: x' := List.prefix_of_prefix_length_le haR h (by omega)
        have hy : a ++ x'.drop a.length = x' := List.prefix_iff_eq_append.mp hax
        set y := x'.drop a.length with hydef
        have hyne : y ≠ [] := by
          intro h0
          have := List.drop_eq_nil_iff.mp h0
          omega
        have hyf : y <+: f ++ replaceAll a (a ++ f) ((c :: t₀).drop a.length) := by
          have h2 : a ++ y <+: a ++ (f ++ replaceAll a (a ++ f) ((c :: t₀).drop a.length)) := by
            rw [hy, ← List.append_assoc]
            exact h
          exact (List.prefix_append_right_inj a).mp h2
        have hff : f <+: f ++ replaceAll a (a ++ f) ((c :: t₀).drop a.length) :=
          List.prefix_append f _
        have hor : y <+: f ∨ f <+: y := by
          by_cases hyl : y.length ≤ f.length
          · exact Or.inl (List.prefix_of_prefix_length_le hyf hff hyl)
          · exact Or.inr (List.prefix_of_prefix_length_le hff hyf (by omega))
        exact hnap a y hy.symm ha hyne ⟨List.suffix_refl a, hor⟩
    · rw [replaceAll_neg _ _ _ _ (fun hc => hpos hc.2)] at h
      cases x' with
      | nil => exact List.nil_prefix
      | cons c' x'' =>
        obtain ⟨hc', hx''⟩ := List.cons_prefix_cons.mp h
        refine List.cons_prefix_cons.mpr ⟨hc', ih x'' ?_ hx''⟩
        intro u v huv hu hv hcontra
        exact hnap (c' :: u) v (by rw [huv, List.cons_append]) (by simp) hv
          ⟨suffix_cons_of c' hcontra.1, hcontra.2⟩

theorem abs_infix_aux (a f x : List Nat) (ha : a ≠ []) (hf : f ≠ [])
    (hsafe : SafeAbs x a f) :
    ∀ (n : Nat) (s : List Nat), s.length = n →
      x <:+: replaceAll a (a ++ f) s → x <:+: s := by
  obtain ⟨hxne, hxf, hsplit⟩ := hsafe
  intro n
  induction n using Nat.strong_induction_on with
  | _ n ih =>
    intro s hlen hx
    match s with
    | [] => rwa [replaceAll_nil] at hx
    | c :: t =>
      have hn : t.length + 1 = n := by simpa using hlen
      by_cases hpos : a <+: (c :: t)
      · rw [replaceAll_pos _ _ _ _ ha hpos] at hx
        set s' := (c :: t).drop a.length with hsdef
        have hs : a ++ s' = c :: t := List.prefix_iff_eq_append.mp hpos
        set R := replaceAll a (a ++ f) s' with hRdef
        have hapos : 0 < a.length := List.length_pos.mpr ha
        have hslt : s'.length < n := by
          have : s'.length = t.length + 1 - a.length := by
            simp [hsdef, List.length_drop]
          omega
        have ihs' : x <:+: R → x <:+: s' := fun hr => ih s'.length hslt s' rfl hr
        rw [← hs]
        obtain ⟨u, v, huv⟩ := hx
        have huv2 : u ++ (x ++ v) = a ++ (f ++ R) := by
          rw [← List.append_assoc, huv, List.append_assoc]
        rcases List.append_eq_append_iff.mp huv2 with ⟨w, hw1, hw2⟩ | ⟨w, hw1, hw2⟩
        · -- a = u ++ w, x ++ v = w ++ (f ++ R)
          by_cases hw : w = []
          · subst hw
            simp only [List.nil_append] at hw2
            -- x ++ v = f ++ R
            rcases List.append_eq_append_iff.mp hw2 with ⟨z, hz1, hz2⟩ | ⟨z, hz1, hz2⟩
            · -- f = x ++ z : x is a prefix of f
              exact absurd ((List.prefix_append x z).isInfix.trans (hz1 ▸ List.infix_refl f))
                hxf
            · -- x = f ++ z, R = z ++ v
              by_cases hz : z = []
              · subst hz
                simp only [List.append_nil] at hz1
                exact absurd (hz1 ▸ List.infix_refl x) hxf
              · exfalso
                exact ((hsplit f z hz1 hf hz).2.2) (List.suffix_refl f)
          · rcases List.append_eq_append_iff.mp hw2 with ⟨z, hz1, hz2⟩ | ⟨z, hz1, hz2⟩
            · -- w = x ++ z : x inside a
              have hxa : x <:+: a := ⟨u, z, by rw [hw1, hz1, List.append_assoc]⟩
              exact infix_ext_right _ hxa
            · -- x = w ++ z, f ++ R = z ++ v
              by_cases hz : z = []
              · subst hz
                simp only [List.append_nil] at hz1
                subst hz1
                have hxa : x <:+: a := ⟨u, [], by simp [hw1]⟩
                exact infix_ext_right _ hxa
              · exfalso
                have hwa : w <:+ a := ⟨u, hw1.symm⟩
                have hzor : z <+: f ∨ f <+: z := by
                  rcases List.append_eq_append_iff.mp hz2.symm with ⟨y, hy1, hy2⟩ | ⟨y, hy1, hy2⟩
                  · exact Or.inl ⟨y, hy1.symm⟩
                  · exact Or.inr ⟨y, hy1.symm⟩
                exact (hsplit w z hz1 hw hz).1 ⟨Or.inl hwa, hzor⟩
        · -- u = a ++ w, f ++ R = w ++ (x ++ v)
          rcases List.append_eq_append_iff.mp hw2.symm with ⟨z, hz1, hz2⟩ | ⟨z, hz1, hz2⟩
          · -- f = w ++ z, x ++ v = z ++ R
            rcases List.append_eq_append_iff.mp hz2 with ⟨y, hy1, hy2⟩ | ⟨y, hy1, hy2⟩
            · -- z = x ++ y : x inside f
              exact absurd ⟨w, y, by rw [hz1, hy1, List.append_assoc]⟩ hxf
            · -- x = z ++ y, R = y ++ v
              by_cases hz : z = []
              · subst hz
                simp only [List.nil_append] at hy1
                subst hy1
                exact infix_ext_left _ (ihs' ⟨[], v, by rw [hy2]; simp⟩)
              · by_cases hy : y = []
                · subst hy
                  simp only [List.append_nil] at hy1
                  subst hy1
                  exact absurd ⟨w, [], by simp [hz1]⟩ hxf
                · exfalso
                  have hzf : z <:+ f := ⟨w, hz1.symm⟩
                  exact ((hsplit z y hy1 hz hy).2.1) hzf
          · -- w = f ++ z, R = z ++ (x ++ v)
            exact infix_ext_left _ (ihs' ⟨z, v, by rw [hz2, List.append_assoc]⟩)
      · rw [replaceAll_neg _ _ _ _ (fun hc => hpos hc.2)] at hx
        rcases List.infix_cons_iff.mp hx with hpre | hinf
        · cases x with
          | nil => exact (List.nil_prefix).isInfix
          | cons c' x'' =>
            obtain ⟨hc', hx''⟩ := List.cons_prefix_cons.mp hpre
            have hnap : ∀ u v : List Nat, x'' = u ++ v → u ≠ [] → v ≠ [] →
                ¬ (a <:+ u ∧ (v <+: f ∨ f <+: v)) := by
              rintro u v huv hu hv ⟨hau, hvf⟩
              exact (hsplit (c' :: u) v (by rw [huv, List.cons_append]) (by simp) hv).1
                ⟨Or.inr (suffix_cons_of c' hau), hvf⟩
            exact (List.cons_prefix_cons.mpr ⟨hc', abs_prefix a f ha t x'' hnap hx''⟩).isInfix
        · exact List.infix_cons (ih t.length (by omega) t rfl hinf)

theorem abs_replace (a f x : List Nat) (ha : a ≠ []) (hf : f ≠ [])
    (hsafe : SafeAbs x a f) (s : List Nat) (h : ¬ x <:+: s) :
    ¬ x <:+: replaceAll a (a ++ f) s :=
  fun hx => h (abs_infix_aux a f x ha hf hsafe s.length s rfl hx)

/-! ## Decidable forms of the side conditions -/

theorem infixB_iff (pat : List Nat) : ∀ s, infixB pat s = true ↔ pat <:+: s := by
  intro s
  induction s with
  | nil =>
    simp only [infixB, List.isEmpty_iff, List.infix_nil]
  | cons c t ih =>
    simp only [infixB, Bool.or_eq_true, List.isPrefixOf_iff_prefix, ih, List.infix_cons_iff]

theorem not_infix_of_infixB {pat s : List Nat} (h : infixB pat s = false) : ¬ pat <:+: s :=
  fun hi => by
    rw [(infixB_iff pat s).mpr hi] at h
    simp at h

theorem infix_of_infixB {pat s : List Nat} (h : infixB pat s = true) : pat <:+: s :=
  (infixB_iff pat s).mp h

theorem suffixB_iff (pat s : List Nat) : suffixB pat s = true ↔ pat <:+ s := by
  unfold suffixB
  rw [List.isPrefixOf_iff_prefix, List.reverse_prefix]

theorem not_suffix_of_suffixB {pat s : List Nat} (h : suffixB pat s = false) : ¬ pat <:+ s :=
  fun hi => by
    rw [(suffixB_iff pat s).mpr hi] at h
    simp at h

theorem safeCut_of_dec (x a : List Nat) (h : NoCutD x a) : SafeCut x a := by
  rintro u v rfl hu hv
  have hvpos : 0 < v.length := List.length_pos.mpr hv
  have hupos : 0 < u.length := List.length_pos.mpr hu
  have hk : u.length < (u ++ v).length := by
    simp only [List.length_append]; omega
  have htake : (u ++ v).take u.length = u := List.take_left u v
  constructor
  · intro hsuf
    have hlen : u.length ≤ a.length := hsuf.length_le
    exact h.1 u.length (by omega) hupos (by rw [htake]; exact hsuf)

  · intro hsuf
    apply not_infix_of_infixB h.2
    have hdl : u <+: (u ++ v).dropLast := by
      rw [List.dropLast_eq_take]
      refine List.prefix_take_iff.mpr ⟨List.prefix_append u v, ?_⟩
      simp only [List.length_append]
      omega
    obtain ⟨w, rfl⟩ := hsuf
    obtain ⟨r, hr⟩ := hdl
    exact ⟨w, r, by rw [← hr, List.append_assoc]⟩

theorem safeAbs_of_dec (x a f : List Nat) (h : NoAbsD x a f) : SafeAbs x a f := by
  obtain ⟨hne, hninf, hk⟩ := h
  refine ⟨hne, not_infix_of_infixB hninf, ?_⟩
  rintro u v rfl hu hv
  have hvpos : 0 < v.length := List.length_pos.mpr hv
  have hupos : 0 < u.length := List.length_pos.mpr hu
  have hkl : u.length < (u ++ v).length := by
    simp only [List.length_append]; omega
  have h1 := hk u.length hkl hupos
  rw [List.take_left, List.drop_left] at h1
  refine ⟨?_, not_suffix_of_suffixB h1.2.1, h1.2.2⟩
  rintro ⟨hua, hvf⟩
  rcases h1.1 with ⟨h2, h3⟩ | ⟨h2, h3⟩
  · rcases hua with h' | h'
    exacts [h2 h', h3 h']
  · rcases hvf with h' | h'
    exacts [h2 h', h3 h']

/-! ## Behaviour of a single guarded insertion -/

theorem applyInj_skip (st : Inj) (s : List Nat) (h : st.marker <:+: s) :
    applyInj st s = s := by
  unfold applyInj
  rw [if_pos h]

theorem applyInj_noAnchor (st : Inj) (s : List Nat) (h : ¬ st.anchor <:+: s) :
    applyInj st s = s := by
  unfold applyInj
  split
  · rfl
  · exact replaceAll_of_absent _ _ _ h

theorem applyInj_noop (st : Inj) (s : List Nat)
    (h : st.marker <:+: s ∨ ¬ st.anchor <:+: s) : applyInj st s = s := by
  cases h with
  | inl h => exact applyInj_skip st s h
  | inr h => exact applyInj_noAnchor st s h

theorem applyInj_fire (st : Inj) (s : List Nat) (h : ¬ st.marker <:+: s) :
    applyInj st s = replaceAll st.anchor st.rep s := by
  unfold applyInj
  rw [if_neg h]

theorem rep_after (st : Inj) (h : st.insAfter = true) :
    st.rep = st.anchor ++ st.fragment := by
  unfold Inj.rep
  rw [if_pos h]

/-- After a guarded insertion runs, either its marker is present in the
result or its anchor is absent from it, so a re-run is a no-op. -/
theorem applyInj_establish (st : Inj) (hmr : st.marker <:+: st.rep)
    (hane : st.anchor ≠ []) (s : List Nat) :
    st.marker <:+: applyInj st s ∨ ¬ st.anchor <:+: applyInj st s := by
  by_cases hm : st.marker <:+: s
  · left
    rwa [applyInj_skip st s hm]
  · by_cases hx : st.anchor <:+: s
    · left
      rw [applyInj_fire st s hm]
      exact hmr.trans (rep_in_result st.anchor st.rep hane s hx)
    · right
      rwa [applyInj_noop st s (Or.inr hx)]

/-- An insert-after step keeps any `SafeCut`-compatible string present. -/
theorem applyInj_pres (stj : Inj) (hafter : stj.insAfter = true) (haj : stj.anchor ≠ [])
    (x : List Nat) (hcut : SafeCut x stj.anchor) (s : List Nat) (h : x <:+: s) :
    x <:+: applyInj stj s := by
  by_cases hg : stj.marker <:+: s
  · rwa [applyInj_skip _ _ hg]
  · rw [applyInj_fire _ _ hg, rep_after stj hafter]
    exact pres_replace stj.anchor stj.fragment x haj hcut s h

/-- An insert-after step keeps any `SafeAbs`-compatible string absent. -/
theorem applyInj_abs (stj : Inj) (hafter : stj.insAfter = true) (haj : stj.anchor ≠ [])
    (hfj : stj.fragment ≠ []) (x : List Nat) (habs : SafeAbs x stj.anchor stj.fragment)
    (s : List Nat) (h : ¬ x <:+: s) : ¬ x <:+: applyInj stj s := by
  by_cases hg : stj.marker <:+: s
  · rwa [applyInj_skip _ _ hg]
  · rw [applyInj_fire _ _ hg, rep_after stj hafter]
    exact abs_replace stj.anchor stj.fragment x haj hfj habs s h

/-- Propagate the "re-run is a no-op" disjunction through a later
insert-after step. -/
theorem applyInj_propagate (stj : Inj) (hafter : stj.insAfter = true)
    (haj : stj.anchor ≠ []) (hfj : stj.fragment ≠ [])
    (m xa : List Nat) (hcut : SafeCut m stj.anchor)
    (habs : SafeAbs xa stj.anchor stj.fragment)
    (s : List Nat) (h : m <:+: s ∨ ¬ xa <:+: s) :
    m <:+: applyInj stj s ∨ ¬ xa <:+: applyInj stj s := by
  cases h with
  | inl hm => exact Or.inl (applyInj_pres stj hafter haj m hcut s hm)
  | inr hxa => exact Or.inr (applyInj_abs stj hafter haj hfj xa habs s hxa)

/-! ## Concrete side-condition instances for the two injector scripts -/

theorem sc_m1_a2 : SafeCut wm1 wa2 := safeCut_of_dec _ _ (by decide)

theorem sc_m1_a3 : SafeCut wm1 wa3 := safeCut_of_dec _ _ (by decide)

theorem sc_m1_a4 : SafeCut wm1 wa4 := safeCut_of_dec _ _ (by decide)

theorem sc_m2_a3 : SafeCut wm2 wa3 := safeCut_of_dec _ _ (by decide)

theorem sc_m2_a4 : SafeCut wm2 wa4 := safeCut_of_dec _ _ (by decide)

theorem sc_m3_a4 : SafeCut wm3 wa4 := safeCut_of_dec _ _ (by decide)

theorem sc_m2_a1 : SafeCut wm2 wa1 := safeCut_of_dec _ _ (by decide)

theorem sc_m3_a1 : SafeCut wm3 wa1 := safeCut_of_dec _ _ (by decide)

theorem sc_m3_a2 : SafeCut wm3 wa2 := safeCut_of_dec _ _ (by decide)

theorem sc_m4_a1 : SafeCut wm4 wa1 := safeCut_of_dec _ _ (by decide)

theorem sc_m4_a2 : SafeCut wm4 wa2 := safeCut_of_dec _ _ (by decide)

theorem sc_m4_a3 : SafeCut wm4 wa3 := safeCut_of_dec _ _ (by decide)

theorem sa_a1_2 : SafeAbs wa1 wa2 wf2 := safeAbs_of_dec _ _ _ (by decide)

theorem sa_a1_3 : SafeAbs wa1 wa3 wf3 := safeAbs_of_dec _ _ _ (by decide)

theorem sa_a1_4 : SafeAbs wa1 wa4 wf4 := safeAbs_of_dec _ _ _ (by decide)

theorem sa_a2_3 : SafeAbs wa2 wa3 wf3 := safeAbs_of_dec _ _ _ (by decide)

theorem sa_a2_4 : SafeAbs wa2 wa4 wf4 := safeAbs_of_dec _ _ _ (by decide)

theorem sa_a3_4 : SafeAbs wa3 wa4 wf4 := safeAbs_of_dec _ _ _ (by decide)

theorem mr_w1 : wm1 <:+: wa1 ++ wf1 := infix_of_infixB (by decide)

theorem mr_w2 : wm2 <:+: wa2 ++ wf2 := infix_of_infixB (by decide)

theorem mr_w3 : wm3 <:+: wa3 ++ wf3 := infix_of_infixB (by decide)

theorem mr_w4 : wm4 <:+: wa4 ++ wf4 := infix_of_infixB (by decide)

/-! ## Idempotence of the site-integration injector -/

theorem website_noop (z : List Nat)
    (h1 : wm1 <:+: z ∨ ¬ wa1 <:+: z) (h2 : wm2 <:+: z ∨ ¬ wa2 <:+: z)
    (h3 : wm3 <:+: z ∨ ¬ wa3 <:+: z) (h4 : wm4 <:+: z ∨ ¬ wa4 <:+: z) :
    update_website_vr z = z := by
  show applyInj wi4 (applyInj wi3 (applyInj wi2 (applyInj wi1 z))) = z
  rw [applyInj_noop wi1 z h1, applyInj_noop wi2 z h2, applyInj_noop wi3 z h3,
    applyInj_noop wi4 z h4]

theorem website_idem (s : List Nat) :
    update_website_vr (update_website_vr s) = update_website_vr s := by
  have q1 : wm1 <:+: update_website_vr s ∨ ¬ wa1 <:+: update_website_vr s := by
    show wm1 <:+: applyInj wi4 (applyInj wi3 (applyInj wi2 (applyInj wi1 s))) ∨ _
    refine applyInj_propagate wi4 rfl (by decide) (by decide) wm1 wa1 sc_m1_a4 sa_a1_4 _ ?_
    refine applyInj_propagate wi3 rfl (by decide) (by decide) wm1 wa1 sc_m1_a3 sa_a1_3 _ ?_
    refine applyInj_propagate wi2 rfl (by decide) (by decide) wm1 wa1 sc_m1_a2 sa_a1_2 _ ?_
    exact applyInj_establish wi1 mr_w1 (by decide) s
  have q2 : wm2 <:+: update_website_vr s ∨ ¬ wa2 <:+: update_website_vr s := by
    show wm2 <:+: applyInj wi4 (applyInj wi3 (applyInj wi2 (applyInj wi1 s))) ∨ _
    refine applyInj_propagate wi4 rfl (by decide) (by decide) wm2 wa2 sc_m2_a4 sa_a2_4 _ ?_
    refine applyInj_propagate wi3 rfl (by decide) (by decide) wm2 wa2 sc_m2_a3 sa_a2_3 _ ?_
    exact applyInj_establish wi2 mr_w2 (by decide) _
  have q3 : wm3 <:+: update_website_vr s ∨ ¬ wa3 <:+: update_website_vr s := by
    show wm3 <:+: applyInj wi4 (applyInj wi3 (applyInj wi2 (applyInj wi1 s))) ∨ _
    refine applyInj_propagate wi4 rfl (by decide) (by decide) wm3 wa3 sc_m3_a4 sa_a3_4 _ ?_
    exact applyInj_establish wi3 mr_w3 (by decide) _
  have q4 : wm4 <:+: update_website_vr s ∨ ¬ wa4 <:+: update_website_vr s := by
    show wm4 <:+: applyInj wi4 (applyInj wi3 (applyInj wi2 (applyInj wi1 s))) ∨ _
    exact applyInj_establish wi4 mr_w4 (by decide) _
  exact website_noop (update_website_vr s) q1 q2 q3 q4

/-- C1: the site-integration injector is idempotent on every input — each
inserted fragment contains its own presence marker, so every guarded
insertion is skipped on the second run.  The UI-preview variant, however,
never performs its insertions at all: the staged script fails to parse
(unterminated string literal, line 14), so every run ends in a parse
failure and no run writes anything — the claimed marker mechanism never
executes there. -/
theorem claim_C1_idempotent (s : List Nat) :
    update_website_vr (update_website_vr s) = update_website_vr s ∧
      (∀ i, update_vr_preview_main i = RunOutcome.parseFailure) :=
  ⟨website_idem s, fun _ => rfl⟩

/-! ## Anchor-miss safety, guard correctness, global replacement -/

/-- C3: for every guarded insertion of the site-integration injector, if the
anchor substring is absent from the in-memory content (and the marker is
absent as well), that insertion leaves the content exactly equal to its
input, without any failing operation on the path.  The UI-preview script has
no such exception-free path: as staged it does not parse, so every run —
before any insertion exists — raises `SyntaxError`. -/
theorem claim_C3_anchor_miss :
    (∀ st ∈ websiteInjs, ∀ s : List Nat,
      ¬ st.anchor <:+: s → ¬ st.marker <:+: s → applyInj st s = s) ∧
    (∀ i, update_vr_preview_main i = RunOutcome.parseFailure) := by
  refine ⟨?_, fun _ => rfl⟩
  intro st _ s hna _
  exact applyInj_noAnchor st s hna

theorem claim_C3_anchor_miss_witness : applyInj wi1 (cp "hello") = cp "hello" :=
  claim_C3_anchor_miss.1 wi1 (List.mem_cons_self _ _) (cp "hello")
    (not_infix_of_infixB (by decide)) (not_infix_of_infixB (by decide))

/-- C4: for each of the four guarded insertions of the site-integration
injector, an input that already contains the guard's marker makes the script
behave exactly as if that insertion were removed: the fragment is not
inserted a second time. -/
theorem claim_C4_guard (s : List Nat) :
    (wm1 <:+: s → update_website_vr s = runInjs [wi2, wi3, wi4] s) ∧
    (wm2 <:+: s → update_website_vr s = runInjs [wi1, wi3, wi4] s) ∧
    (wm3 <:+: s → update_website_vr s = runInjs [wi1, wi2, wi4] s) ∧
    (wm4 <:+: s → update_website_vr s = runInjs [wi1, wi2, wi3] s) := by
  refine ⟨?_, ?_, ?_, ?_⟩
  · intro hm
    show applyInj wi4 (applyInj wi3 (applyInj wi2 (applyInj wi1 s))) =
      applyInj wi4 (applyInj wi3 (applyInj wi2 s))
    rw [applyInj_skip wi1 s hm]
  · intro hm
    have p1 : wm2 <:+: applyInj wi1 s := applyInj_pres wi1 rfl (by decide) wm2 sc_m2_a1 s hm
    show applyInj wi4 (applyInj wi3 (applyInj wi2 (applyInj wi1 s))) =
      applyInj wi4 (applyInj wi3 (applyInj wi1 s))
    rw [applyInj_skip wi2 _ p1]
  · intro hm
    have p1 : wm3 <:+: applyInj wi1 s := applyInj_pres wi1 rfl (by decide) wm3 sc_m3_a1 s hm
    have p2 : wm3 <:+: applyInj wi2 (applyInj wi1 s) :=
      applyInj_pres wi2 rfl (by decide) wm3 sc_m3_a2 _ p1
    show applyInj wi4 (applyInj wi3 (applyInj wi2 (applyInj wi1 s))) =
      applyInj wi4 (applyInj wi2 (applyInj wi1 s))
    rw [applyInj_skip wi3 _ p2]
  · intro hm
    have p1 : wm4 <:+: applyInj wi1 s := applyInj_pres wi1 rfl (by decide) wm4 sc_m4_a1 s hm
    have p2 : wm4 <:+: applyInj wi2 (applyInj wi1 s) :=
      applyInj_pres wi2 rfl (by decide) wm4 sc_m4_a2 _ p1
    have p3 : wm4 <:+: applyInj wi3 (applyInj wi2 (applyInj wi1 s)) :=
      applyInj_pres wi3 rfl (by decide) wm4 sc_m4_a3 _ p2
    show applyInj wi4 (applyInj wi3 (applyInj wi2 (applyInj wi1 s))) =
      applyInj wi3 (applyInj wi2 (applyInj wi1 s))
    rw [applyInj_skip wi4 _ p3]

theorem claim_C4_guard_witness :
    update_website_vr (wm1 ++ wm2 ++ wm3 ++ wm4) =
      runInjs [wi2, wi3, wi4] (wm1 ++ wm2 ++ wm3 ++ wm4) :=
  (claim_C4_guard _).1 (infix_of_infixB (by decide))

theorem anchors_ne : ∀ st ∈ websiteInjs, st.anchor ≠ [] := by
  intro st hst
  fin_cases hst <;> decide

/-- C10: each guarded insertion of the site-integration injector is a global
substring replacement: on a document of the form
`t0 ++ anchor ++ t1 ++ ... ++ anchor ++ tk` (the anchor occurring exactly at
the `k` separator positions, marker absent), the fragment is inserted
adjacent to every one of the `k` anchor occurrences.  The UI-preview
script's insertions never run: as staged the script fails to parse, so
every invocation ends in a parse failure and inserts nothing. -/
theorem claim_C10_global :
    (∀ st ∈ websiteInjs, ∀ (ts : List (List Nat)) (hne : ts ≠ []),
      (∀ u ∈ ts.dropLast, ¬ st.anchor <:+: (u ++ st.anchor.dropLast)) →
      ¬ st.anchor <:+: ts.getLast hne →
      ¬ st.marker <:+: joinSep st.anchor ts →
      applyInj st (joinSep st.anchor ts) = joinSep st.rep ts) ∧
    (∀ i, update_vr_preview_main i = RunOutcome.parseFailure) := by
  refine ⟨?_, fun _ => rfl⟩
  intro st hst ts hne hclean hlast hm
  rw [applyInj_fire st _ hm]
  exact replaceAll_joinSep st.anchor st.rep (anchors_ne st hst) ts hne hclean hlast

theorem claim_C10_global_witness :
    applyInj wi2 (joinSep wa2 [cp "x", cp "y", cp "z"]) =
      joinSep wi2.rep [cp "x", cp "y", cp "z"] :=
  claim_C10_global.1 wi2 (List.mem_cons_of_mem _ (List.mem_cons_self _ _))
    [cp "x", cp "y", cp "z"] (by decide) (by decide) (by decide)
    (not_infix_of_infixB (by decide))

/-! ## A single run applying all four insertions -/

theorem sc_a2_a1 : SafeCut wa2 wa1 := safeCut_of_dec _ _ (by decide)

theorem sc_a3_a1 : SafeCut wa3 wa1 := safeCut_of_dec _ _ (by decide)

theorem sc_a3_a2 : SafeCut wa3 wa2 := safeCut_of_dec _ _ (by decide)

theorem sc_a4_a1 : SafeCut wa4 wa1 := safeCut_of_dec _ _ (by decide)

theorem sc_a4_a2 : SafeCut wa4 wa2 := safeCut_of_dec _ _ (by decide)

theorem sc_a4_a3 : SafeCut wa4 wa3 := safeCut_of_dec _ _ (by decide)

theorem sa_m2_1 : SafeAbs wm2 wa1 wf1 := safeAbs_of_dec _ _ _ (by decide)

theorem sa_m3_1 : SafeAbs wm3 wa1 wf1 := safeAbs_of_dec _ _ _ (by decide)

theorem sa_m3_2 : SafeAbs wm3 wa2 wf2 := safeAbs_of_dec _ _ _ (by decide)

theorem sa_m4_1 : SafeAbs wm4 wa1 wf1 := safeAbs_of_dec _ _ _ (by decide)

theorem sa_m4_2 : SafeAbs wm4 wa2 wf2 := safeAbs_of_dec _ _ _ (by decide)

theorem sa_m4_3 : SafeAbs wm4 wa3 wf3 := safeAbs_of_dec _ _ _ (by decide)

theorem sc_af1_a2 : SafeCut (wa1 ++ wf1) wa2 := safeCut_of_dec _ _ (by decide)

theorem sc_af1_a3 : SafeCut (wa1 ++ wf1) wa3 := safeCut_of_dec _ _ (by decide)

theorem sc_af1_a4 : SafeCut (wa1 ++ wf1) wa4 := safeCut_of_dec _ _ (by decide)

theorem sc_af2_a3 : SafeCut (wa2 ++ wf2) wa3 := safeCut_of_dec _ _ (by decide)

theorem sc_af2_a4 : SafeCut (wa2 ++ wf2) wa4 := safeCut_of_dec _ _ (by decide)

theorem sc_af3_a4 : SafeCut (wa3 ++ wf3) wa4 := safeCut_of_dec _ _ (by decide)

/-- C5: on an input containing all four anchors and none of the four
markers, a single run of the site-integration injector fires all four
insertions — the run equals the unguarded composition of the four
replacements, each fragment ends up adjacent to its anchor in the output,
and no inserted fragment contains a later insertion's anchor or marker. -/
theorem claim_C5_single_run (s : List Nat)
    (hm1 : ¬ wm1 <:+: s) (hm2 : ¬ wm2 <:+: s) (hm3 : ¬ wm3 <:+: s) (hm4 : ¬ wm4 <:+: s)
    (ha1 : wa1 <:+: s) (ha2 : wa2 <:+: s) (ha3 : wa3 <:+: s) (ha4 : wa4 <:+: s) :
    update_website_vr s =
      replaceAll wa4 (wa4 ++ wf4) (replaceAll wa3 (wa3 ++ wf3)
        (replaceAll wa2 (wa2 ++ wf2) (replaceAll wa1 (wa1 ++ wf1) s))) ∧
    ((wa1 ++ wf1) <:+: update_website_vr s ∧ (wa2 ++ wf2) <:+: update_website_vr s ∧
     (wa3 ++ wf3) <:+: update_website_vr s ∧ (wa4 ++ wf4) <:+: update_website_vr s) ∧
    (¬ wa2 <:+: wf1 ∧ ¬ wm2 <:+: wf1 ∧ ¬ wa3 <:+: wf1 ∧ ¬ wm3 <:+: wf1 ∧
     ¬ wa4 <:+: wf1 ∧ ¬ wm4 <:+: wf1 ∧ ¬ wa3 <:+: wf2 ∧ ¬ wm3 <:+: wf2 ∧
     ¬ wa4 <:+: wf2 ∧ ¬ wm4 <:+: wf2 ∧ ¬ wa4 <:+: wf3 ∧ ¬ wm4 <:+: wf3) := by
  have h2m2 : ¬ wm2 <:+: applyInj wi1 s :=
    applyInj_abs wi1 rfl (by decide) (by decide) wm2 sa_m2_1 s hm2
  have h3m3 : ¬ wm3 <:+: applyInj wi2 (applyInj wi1 s) :=
    applyInj_abs wi2 rfl (by decide) (by decide) wm3 sa_m3_2 _
      (applyInj_abs wi1 rfl (by decide) (by decide) wm3 sa_m3_1 s hm3)
  have h4m4 : ¬ wm4 <:+: applyInj wi3 (applyInj wi2 (applyInj wi1 s)) :=
    applyInj_abs wi3 rfl (by decide) (by decide) wm4 sa_m4_3 _
      (applyInj_abs wi2 rfl (by decide) (by decide) wm4 sa_m4_2 _
        (applyInj_abs wi1 rfl (by decide) (by decide) wm4 sa_m4_1 s hm4))
  have h2a2 : wa2 <:+: applyInj wi1 s := applyInj_pres wi1 rfl (by decide) wa2 sc_a2_a1 s ha2
  have h3a3 : wa3 <:+: applyInj wi2 (applyInj wi1 s) :=
    applyInj_pres wi2 rfl (by decide) wa3 sc_a3_a2 _
      (applyInj_pres wi1 rfl (by decide) wa3 sc_a3_a1 s ha3)
  have h4a4 : wa4 <:+: applyInj wi3 (applyInj wi2 (applyInj wi1 s)) :=
    applyInj_pres wi3 rfl (by decide) wa4 sc_a4_a3 _
      (applyInj_pres wi2 rfl (by decide) wa4 sc_a4_a2 _
        (applyInj_pres wi1 rfl (by decide) wa4 sc_a4_a1 s ha4))
  have e1 : applyInj wi1 s = replaceAll wa1 (wa1 ++ wf1) s := by
    rw [applyInj_fire wi1 s hm1]; rfl
  have e2 : applyInj wi2 (applyInj wi1 s) =
      replaceAll wa2 (wa2 ++ wf2) (applyInj wi1 s) := by
    rw [applyInj_fire wi2 _ h2m2]; rfl
  have e3 : applyInj wi3 (applyInj wi2 (applyInj wi1 s)) =
      replaceAll wa3 (wa3 ++ wf3) (applyInj wi2 (applyInj wi1 s)) := by
    rw [applyInj_fire wi3 _ h3m3]; rfl
  have e4 : applyInj wi4 (applyInj wi3 (applyInj wi2 (applyInj wi1 s))) =
      replaceAll wa4 (wa4 ++ wf4) (applyInj wi3 (applyInj wi2 (applyInj wi1 s))) := by
    rw [applyInj_fire wi4 _ h4m4]; rfl
  have g1 : (wa1 ++ wf1) <:+: update_website_vr s := by
    show (wa1 ++ wf1) <:+: applyInj wi4 (applyInj wi3 (applyInj wi2 (applyInj wi1 s)))
    refine applyInj_pres wi4 rfl (by decide) _ sc_af1_a4 _ ?_
    refine applyInj_pres wi3 rfl (by decide) _ sc_af1_a3 _ ?_
    refine applyInj_pres wi2 rfl (by decide) _ sc_af1_a2 _ ?_
    rw [e1]
    exact rep_in_result wa1 (wa1 ++ wf1) (by decide) s ha1
  have g2 : (wa2 ++ wf2) <:+: update_website_vr s := by
    show (wa2 ++ wf2) <:+: applyInj wi4 (applyInj wi3 (applyInj wi2 (applyInj wi1 s)))
    refine applyInj_pres wi4 rfl (by decide) _ sc_af2_a4 _ ?_
    refine applyInj_pres wi3 rfl (by decide) _ sc_af2_a3 _ ?_
    rw [e2]
    exact rep_in_result wa2 (wa2 ++ wf2) (by decide) _ h2a2
  have g3 : (wa3 ++ wf3) <:+: update_website_vr s := by
    show (wa3 ++ wf3) <:+: applyInj wi4 (applyInj wi3 (applyInj wi2 (applyInj wi1 s)))
    refine applyInj_pres wi4 rfl (by decide) _ sc_af3_a4 _ ?_
    rw [e3]
    exact rep_in_result wa3 (wa3 ++ wf3) (by decide) _ h3a3
  have g4 : (wa4 ++ wf4) <:+: update_website_vr s := by
    show (wa4 ++ wf4) <:+: applyInj wi4 (applyInj wi3 (applyInj wi2 (applyInj wi1 s)))
    rw [e4]
    exact rep_in_result wa4 (wa4 ++ wf4) (by decide) _ h4a4
  refine ⟨?_, ⟨g1, g2, g3, g4⟩, ?_⟩
  · show applyInj wi4 (applyInj wi3 (applyInj wi2 (applyInj wi1 s))) = _
    rw [e4, e3, e2, e1]
  · exact ⟨not_infix_of_infixB (by decide), not_infix_of_infixB (by decide),
      not_infix_of_infixB (by decide), not_infix_of_infixB (by decide),
      not_infix_of_infixB (by decide), not_infix_of_infixB (by decide),
      not_infix_of_infixB (by decide), not_infix_of_infixB (by decide),
      not_infix_of_infixB (by decide), not_infix_of_infixB (by decide),
      not_infix_of_infixB (by decide), not_infix_of_infixB (by decide)⟩

theorem claim_C5_single_run_witness :
    update_website_vr (wa1 ++ wa2 ++ wa3 ++ wa4) =
      replaceAll wa4 (wa4 ++ wf4) (replaceAll wa3 (wa3 ++ wf3)
        (replaceAll wa2 (wa2 ++ wf2) (replaceAll wa1 (wa1 ++ wf1)
          (wa1 ++ wa2 ++ wa3 ++ wa4)))) :=
  (claim_C5_single_run (wa1 ++ wa2 ++ wa3 ++ wa4)
    (not_infix_of_infixB (by decide)) (not_infix_of_infixB (by decide))
    (not_infix_of_infixB (by decide)) (not_infix_of_infixB (by decide))
    (infix_of_infixB (by decide)) (infix_of_infixB (by decide))
    (infix_of_infixB (by decide)) (infix_of_infixB (by decide))).1

/-! ## Whitespace normalisation of the Content Scrubber -/

theorem collapseGo_cons_ne (c : Nat) (t : List Nat) (n : Nat) (hc : c ≠ 10) :
    collapseGo (c :: t) n = emitNl n ++ c :: collapseGo t 0 := by
  simp [collapseGo, hc]

theorem collapseGo_cons_nl (t : List Nat) (n : Nat) :
    collapseGo (10 :: t) n = collapseGo t (n + 1) := by
  simp [collapseGo]

theorem collapseGo_append (q : List Nat) :
    ∀ (p : List Nat), p ≠ [] → p.getLast? ≠ some 10 →
      ∀ n, collapseGo (p ++ q) n = collapseGo p n ++ collapseGo q 0 := by
  intro p
  induction p with
  | nil => intro h; exact absurd rfl h
  | cons c p' ih =>
    intro _ hlast n
    match p' with
    | [] =>
      have hc : c ≠ 10 := by simpa using hlast
      show collapseGo (c :: q) n = collapseGo [c] n ++ collapseGo q 0
      simp [collapseGo, hc, emitNl, List.append_assoc]
    | c' :: p'' =>
      have hlast' : (c' :: p'').getLast? ≠ some 10 := by
        rwa [List.getLast?_cons_cons] at hlast
      show collapseGo (c :: ((c' :: p'') ++ q)) n = collapseGo (c :: c' :: p'') n ++ _
      by_cases hc : c = 10
      · subst hc
        rw [collapseGo_cons_nl ((c' :: p'') ++ q) n, collapseGo_cons_nl (c' :: p'') n]
        exact ih (by simp) hlast' (n + 1)
      · rw [collapseGo_cons_ne c ((c' :: p'') ++ q) n hc,
          collapseGo_cons_ne c (c' :: p'') n hc, ih (by simp) hlast' 0]
        simp

theorem collapseGo_replicate (q : List Nat) :
    ∀ (k n : Nat), collapseGo (List.replicate k 10 ++ q) n = collapseGo q (n + k) := by
  intro k
  induction k with
  | zero => intro n; simp
  | succ k ih =>
    intro n
    rw [List.replicate_succ]
    show collapseGo (10 :: (List.replicate k 10 ++ q)) n = collapseGo q (n + (k + 1))
    rw [collapseGo_cons_nl, ih (n + 1), show n + 1 + k = n + (k + 1) by omega]

theorem collapseGo_shift (q : List Nat) (hq : q.head? ≠ some 10) :
    ∀ n, collapseGo q n = emitNl n ++ collapseGo q 0 := by
  intro n
  match q with
  | [] => simp [collapseGo, emitNl]
  | c :: t =>
    have hc : c ≠ 10 := by simpa using hq
    simp [collapseGo, hc, emitNl]

/-- C6: the Content Scrubber first normalises line terminators and then
collapses every run of three or more newlines to exactly two (one blank
line); around such a run the transformation factors through the surrounding
text, so an input `p ++ "\n"*n ++ q` with `n ≥ 3` yields
`collapse p ++ "\n\n" ++ collapse q` — for a fixed input the output is the
fixed string this equation computes. -/
theorem claim_C6_whitespace (p q : List Nat) (n : Nat) (h3 : 3 ≤ n)
    (hp13 : 13 ∉ p) (hq13 : 13 ∉ q)
    (hpl : p.getLast? ≠ some 10) (hqh : q.head? ≠ some 10) :
    normalizeWs (p ++ List.replicate n 10 ++ q) = collapse p ++ [10, 10] ++ collapse q := by
  unfold normalizeWs
  have hcr : replaceAll (cp "\r\n") (cp "\n") (p ++ List.replicate n 10 ++ q) =
      p ++ List.replicate n 10 ++ q := by
    apply replaceAll_of_absent
    intro hinf
    have h13 : 13 ∈ p ++ List.replicate n 10 ++ q := hinf.subset (by decide)
    simp only [List.mem_append, List.mem_replicate] at h13
    rcases h13 with (h | h) | h
    · exact hp13 h
    · omega
    · exact hq13 h
  rw [hcr]
  unfold collapse
  by_cases hp : p = []
  · subst hp
    simp only [List.nil_append]
    rw [collapseGo_replicate q n 0, collapseGo_shift q hqh (0 + n)]
    have : emitNl (0 + n) = [10, 10] := by simp [emitNl]; omega
    rw [this]
    simp [collapseGo, emitNl]
  · rw [List.append_assoc, collapseGo_append _ p hp hpl 0,
      collapseGo_replicate q n 0, collapseGo_shift q hqh (0 + n)]
    have : emitNl (0 + n) = [10, 10] := by simp [emitNl]; omega
    rw [this]
    simp [List.append_assoc]

theorem claim_C6_whitespace_witness :
    normalizeWs (cp "a" ++ List.replicate 4 10 ++ cp "b") =
      collapse (cp "a") ++ [10, 10] ++ collapse (cp "b") :=
  claim_C6_whitespace (cp "a") (cp "b") 4 (by decide) (by decide) (by decide)
    (by decide) (by decide)

/-! ## Page generator and process entry points -/

/-- C7: the Page Generator ensures the output path's parent directory exists
and then writes the compiled-in template as the file's entire contents,
overwriting unconditionally; afterwards the file exists and reads back as
exactly the template. -/
theorem claim_C7_page_generator (fs : SiteFS) :
    (create_vr_page fs).files vrPagePath = some vrPageHtml ∧
      (create_vr_page fs).dirs vrPageDir = true := by
  constructor
  · show (if vrPagePath = vrPagePath then some vrPageHtml else fs.files vrPagePath) = _
    rw [if_pos rfl]
  · show (if vrPageDir = vrPageDir then true else fs.dirs vrPageDir) = true
    rw [if_pos rfl]

/-- C9: contrary to the claim, the staged UI-preview script never reaches
its existence check.  The module does not parse (unterminated string
literal, line 14), so every run — target file present or missing — ends in
an uncaught `SyntaxError` without printing the message or writing: never
the claimed clean `exit(1)` on a missing file, never continued processing
on a present one.  The other scripts behave as the claim's contrast says:
uncaught error on a missing file for the two direct-open scripts, an
unconditional write for the page generator. -/
theorem claim_C9_existence_check :
    (∀ i, update_vr_preview_main i = RunOutcome.parseFailure) ∧
    (∀ i, update_vr_preview_main i ≠ RunOutcome.exitNoWrite 1) ∧
    (∀ i c, update_vr_preview_main i ≠ RunOutcome.wrote c) ∧
    update_website_vr_main none = RunOutcome.uncaughtError ∧
    final_polish_main none = RunOutcome.uncaughtError ∧
    (∀ i, create_vr_page_main i = RunOutcome.wrote (utf8Str vrPageHtml)) := by
  refine ⟨fun _ => rfl, fun i h => ?_, fun i c h => ?_, rfl, rfl, fun _ => rfl⟩
  · simp [update_vr_preview_main] at h
  · simp [update_vr_preview_main] at h

/-! ## The Content Scrubber on the spec's example input -/

/-- C2: on the spec's example input `<h3>XYZ Infinite Terrain</h3>` the
embedded `final_polish` replaces the header, but with the source file's
literal replacement text — the mojibake rendering `рџЏ”пёЏ` of the emoji —
so the output does not contain `<h3>🏔️ Infinite Terrain</h3>` verbatim. -/
theorem claim_C2_header_replacement :
    final_polish (cp "<h3>XYZ Infinite Terrain</h3>") =
      some (utf8Str "<h3>рџЏ”пёЏ Infinite Terrain</h3>") ∧
    ¬ utf8Str "<h3>🏔️ Infinite Terrain</h3>" <:+:
      utf8Str "<h3>рџЏ”пёЏ Infinite Terrain</h3>" :=
  ⟨by decide, not_infix_of_infixB (by decide)⟩

/-! ## Total decode and non-raising encode -/

theorem mem_raGo (pat rep : List Nat) :
    ∀ (fuel : Nat) (s : List Nat) (c : Nat), c ∈ raGo pat rep fuel s → c ∈ s ∨ c ∈ rep := by
  intro fuel
  induction fuel with
  | zero =>
    intro s c h
    match s with
    | [] => simp [raGo] at h
    | d :: t =>
      simp only [raGo] at h
      exact Or.inl h
  | succ fuel ih =>
    intro s c h
    match s with
    | [] => simp [raGo] at h
    | d :: t =>
      simp only [raGo] at h
      by_cases hc : pat ≠ [] ∧ pat <+: (d :: t)
      · rw [if_pos hc] at h
        rcases List.mem_append.mp h with h | h
        · exact Or.inr h
        · rcases ih _ c h with h' | h'
          · exact Or.inl (List.mem_of_mem_drop h')
          · exact Or.inr h'
      · rw [if_neg hc] at h
        rcases List.mem_cons.mp h with h | h
        · exact Or.inl (h ▸ List.mem_cons_self d t)
        · rcases ih t c h with h' | h'
          · exact Or.inl (List.mem_cons_of_mem d h')
          · exact Or.inr h'

theorem mem_replaceAll {pat rep s : List Nat} {c : Nat} (h : c ∈ replaceAll pat rep s) :
    c ∈ s ∨ c ∈ rep :=
  mem_raGo pat rep s.length s c h

theorem mem_runPairs (ps : List (List Nat × List Nat)) :
    ∀ (s : List Nat) (c : Nat), c ∈ runPairs ps s → c ∈ s ∨ ∃ p ∈ ps, c ∈ p.2 := by
  induction ps with
  | nil => intro s c h; exact Or.inl h
  | cons p ps ih =>
    intro s c h
    rcases ih (replaceAll p.1 p.2 s) c h with h' | ⟨p', hp', hc⟩
    · rcases mem_replaceAll h' with h'' | h''
      · exact Or.inl h''
      · exact Or.inr ⟨p, List.mem_cons_self _ _, h''⟩
    · exact Or.inr ⟨p', List.mem_cons_of_mem _ hp', hc⟩

theorem mem_emitNl {n c : Nat} (h : c ∈ emitNl n) : c = 10 := by
  unfold emitNl at h
  split at h
  · simp at h
    exact h
  · exact List.eq_of_mem_replicate h

theorem mem_collapseGo : ∀ (s : List Nat) (n c : Nat), c ∈ collapseGo s n → c ∈ s ∨ c = 10 := by
  intro s
  induction s with
  | nil =>
    intro n c h
    simp only [collapseGo] at h
    exact Or.inr (mem_emitNl h)
  | cons d t ih =>
    intro n c h
    by_cases hd : d = 10
    · subst hd
      rw [collapseGo_cons_nl] at h
      rcases ih (n + 1) c h with h | h
      · exact Or.inl (List.mem_cons_of_mem _ h)
      · exact Or.inr h
    · rw [collapseGo_cons_ne d t n hd] at h
      rcases List.mem_append.mp h with h | h
      · exact Or.inr (mem_emitNl h)
      · rcases List.mem_cons.mp h with h | h
        · exact Or.inl (h ▸ List.mem_cons_self d t)
        · rcases ih 0 c h with h' | h'
          · exact Or.inl (List.mem_cons_of_mem d h')
          · exact Or.inr h'

theorem mem_hdrGo (op : List Nat) (cl : List (Option Nat)) (rep : List Nat) :
    ∀ (fuel : Nat) (s : List Nat) (c : Nat), c ∈ hdrGo op cl rep fuel s → c ∈ s ∨ c ∈ rep := by
  intro fuel
  induction fuel with
  | zero =>
    intro s c h
    match s with
    | [] => simp [hdrGo] at h
    | d :: t =>
      simp only [hdrGo] at h
      exact Or.inl h
  | succ fuel ih =>
    intro s c h
    match s with
    | [] => simp [hdrGo] at h
    | d :: t =>
      simp only [hdrGo] at h
      by_cases hcnd : op ≠ [] ∧ ciPrefixP (op.map some) (d :: t) = true
      · rw [if_pos hcnd] at h
        rcases hfc : findClose cl ((d :: t).drop op.length) with _ | j
        · rw [hfc] at h
          rcases List.mem_cons.mp h with h | h
          · exact Or.inl (h ▸ List.mem_cons_self d t)
          · rcases ih t c h with h' | h'
            · exact Or.inl (List.mem_cons_of_mem d h')
            · exact Or.inr h'
        · rw [hfc] at h
          rcases List.mem_append.mp h with h | h
          · exact Or.inr h
          · rcases ih _ c h with h' | h'
            · exact Or.inl (List.mem_of_mem_drop h')
            · exact Or.inr h'
      · rw [if_neg hcnd] at h
        rcases List.mem_cons.mp h with h | h
        · exact Or.inl (h ▸ List.mem_cons_self d t)
        · rcases ih t c h with h' | h'
          · exact Or.inl (List.mem_cons_of_mem d h')
          · exact Or.inr h'

theorem mem_runHdrs (ts : List (List Nat × List (Option Nat) × List Nat)) :
    ∀ (s : List Nat) (c : Nat), c ∈ runHdrs ts s → c ∈ s ∨ ∃ t ∈ ts, c ∈ t.2.2 := by
  induction ts with
  | nil => intro s c h; exact Or.inl h
  | cons t ts ih =>
    intro s c h
    rcases ih (hdrSub t.1 t.2.1 t.2.2 s) c h with h' | ⟨t', ht', hc⟩
    · rcases mem_hdrGo t.1 t.2.1 t.2.2 s.length s c h' with h'' | h''
      · exact Or.inl h''
      · exact Or.inr ⟨t, List.mem_cons_self _ _, h''⟩
    · exact Or.inr ⟨t', List.mem_cons_of_mem _ ht', hc⟩

theorem mem_d1Go (lit : List Nat) :
    ∀ (fuel : Nat) (s : List Nat) (c : Nat), c ∈ d1Go lit fuel s → c ∈ s := by
  intro fuel
  induction fuel with
  | zero =>
    intro s c h
    match s with
    | [] => simp [d1Go] at h
    | d :: t =>
      simp only [d1Go] at h
      exact h
  | succ fuel ih =>
    intro s c h
    match s with
    | [] => simp [d1Go] at h
    | d :: t =>
      simp only [d1Go] at h
      by_cases hc : lit ≠ [] ∧ lit <+: (d :: t)
      · rw [if_pos hc] at h
        have h' := ih _ c h
        exact List.mem_of_mem_drop ((List.dropWhile_sublist _).subset h')
      · rw [if_neg hc] at h
        rcases List.mem_cons.mp h with h | h
        · exact h ▸ List.mem_cons_self d t
        · exact List.mem_cons_of_mem d (ih t c h)

theorem mem_d2Go (lit : List Nat) :
    ∀ (fuel : Nat) (s : List Nat) (c : Nat), c ∈ d2Go lit fuel s → c ∈ s := by
  intro fuel
  induction fuel with
  | zero =>
    intro s c h
    match s with
    | [] => simp [d2Go] at h
    | d :: t =>
      simp only [d2Go] at h
      exact h
  | succ fuel ih =>
    intro s c h
    match s with
    | [] => simp [d2Go] at h
    | d :: t =>
      simp only [d2Go] at h
      by_cases hc : lit ≠ [] ∧ lit <+: (d :: t)
      · rw [if_pos hc] at h
        by_cases hrun : 2 ≤ (((d :: t).drop lit.length).takeWhile inCls2).length
        · rw [if_pos hrun] at h
          have h' := ih _ c h
          exact List.mem_of_mem_drop (List.mem_of_mem_drop h')
        · rw [if_neg hrun] at h
          rcases List.mem_cons.mp h with h | h
          · exact h ▸ List.mem_cons_self d t
          · exact List.mem_cons_of_mem d (ih t c h)
      · rw [if_neg hc] at h
        rcases List.mem_cons.mp h with h | h
        · exact h ▸ List.mem_cons_self d t
        · exact List.mem_cons_of_mem d (ih t c h)

theorem cpUtf8o_ok {c : Nat} (h : OkCp c) : cpUtf8o c = some (cpUtf8 c) := by
  rcases h with h | ⟨h1, h2⟩ <;>
    · unfold cpUtf8o
      rw [if_neg (by omega), if_neg (by omega)]

theorem utf8EncodeAll_total :
    ∀ (s : List Nat), (∀ c ∈ s, OkCp c) → ∃ bs, utf8EncodeAll s = some bs := by
  intro s
  induction s with
  | nil => exact fun _ => ⟨[], rfl⟩
  | cons c t ih =>
    intro h
    obtain ⟨bs, hbs⟩ := ih (fun c' hc' => h c' (List.mem_cons_of_mem _ hc'))
    refine ⟨cpUtf8 c ++ bs, ?_⟩
    show (cpUtf8o c).bind _ = _
    rw [cpUtf8o_ok (h c (List.mem_cons_self _ _)), hbs]
    rfl

theorem scrub_reps_ok : ∀ p ∈ scrubPairs, ∀ c ∈ p.2, OkCp c := by decide

theorem hdr_reps_ok : ∀ t ∈ hdrTriples, ∀ c ∈ t.2.2, OkCp c := by decide

theorem strata_reps_ok : ∀ p ∈ strataPairs, ∀ c ∈ p.2, OkCp c := by decide

/-- C8: on every genuine byte sequence the Content Scrubber's permissive
latin-1 decode succeeds, every pipeline stage produces only encodable code
points, and the final strict UTF-8 encode never fails, so the whole
transformation always returns a result. -/
theorem claim_C8_encode_safety (bs : List Nat) (hb : ∀ b ∈ bs, b < 256) :
    ∃ out, final_polish bs = some out := by
  have hok : ∀ c ∈ polishText bs, OkCp c := by
    intro c hc
    unfold polishText at hc
    rcases mem_runPairs strataPairs _ c hc with hc0 | ⟨p, hp, hcp⟩
    · have hc1 := mem_d2Go delLit2 _ _ c hc0
      have hc2 := mem_d1Go delLit1 _ _ c hc1
      rcases mem_runPairs scrubPairs _ c hc2 with hc3 | ⟨p, hp, hcp⟩
      · rcases mem_runHdrs hdrTriples _ c hc3 with hc4 | ⟨t, ht, hct⟩
        · unfold normalizeWs at hc4
          rcases mem_collapseGo _ 0 c hc4 with hc5 | hc5
          · rcases mem_replaceAll hc5 with hc6 | hc6
            · have := hb c hc6
              exact Or.inl (by omega)
            · have : c = 10 := by simpa [cp] using hc6
              exact Or.inl (by omega)
          · exact Or.inl (by omega)
        · exact hdr_reps_ok t ht c hct
      · exact scrub_reps_ok p hp c hcp
    · exact strata_reps_ok p hp c hcp
  obtain ⟨out, hout⟩ := utf8EncodeAll_total (polishText bs) hok
  refine ⟨out, ?_⟩
  unfold final_polish latin1Decode
  rw [if_pos hb]
  simpa using hout

theorem claim_C8_encode_safety_witness : ∃ out, final_polish (cp "abc") = some out :=
  claim_C8_encode_safety (cp "abc") (by decide)

end LatticeVeil
